import Mathlib

/-!
Verification development for the review-scraper repository
(`review_scraper.py`, `github_reviews.py`).

Conventions of the shallow embedding:
* character strings are Lean `String`s (ASCII fragment; the Python source
  only ever handles ASCII data in the parts modelled here);
* Python `datetime` values produced by the code are always midnight dates,
  so they are modelled by a year/month/day triple `Dt` with the
  lexicographic order of `datetime` comparison;
* fallible operations (HTTP fetches, HTML parses) become `Option`-valued
  oracles: the network and the HTML documents are inputs of the model,
  and every theorem quantifies over them;
* Python `float` ratings are modelled by `ℚ` (no rating arithmetic in the
  source besides one division, so no rounding behaviour is relied upon).
-/

/-- A calendar date, the value of a Python `datetime` at midnight. -/
structure Dt where
  y : ℕ
  m : ℕ
  d : ℕ
deriving DecidableEq, Repr

/-- `datetime` strict comparison: lexicographic on (year, month, day). -/
def dtLt (a b : Dt) : Bool :=
  a.y < b.y || (a.y = b.y && (a.m < b.m || (a.m = b.m && a.d < b.d)))

/-- `datetime` non-strict comparison (total order, so `a <= b` iff `¬ b < a`). -/
def dtLe (a b : Dt) : Bool := !(dtLt b a)

/-- Python `str.isspace`-style whitespace characters (the `\s` class). -/
def pyIsSpace (c : Char) : Bool :=
  c = ' ' || c = '\t' || c = '\n' || c = '\r' || c = '\x0b' || c = '\x0c'

/-- Python regex `\w` word characters (ASCII fragment). -/
def isWordChar (c : Char) : Bool := c.isAlphanum || c = '_'

/-- Characters kept by the `re.sub` cleanup in `ReviewScraper.parse_date`,
which deletes every character that is not a word character, whitespace,
comma, slash or hyphen. -/
def keepChar (c : Char) : Bool :=
  isWordChar c || pyIsSpace c || c = ',' || c = '/' || c = '-'

/-- `str.strip()` on a character list. -/
def pyStrip (cs : List Char) : List Char :=
  ((cs.dropWhile pyIsSpace).reverse.dropWhile pyIsSpace).reverse

/-- Numeric value of an ASCII digit character. -/
def digitVal (c : Char) : ℕ := c.toNat - '0'.toNat

/-- Accumulate a decimal number from digit characters. -/
def digitsToNat (cs : List Char) : ℕ := cs.foldl (fun a c => a * 10 + digitVal c) 0

/-- The twelve full month names, as `strptime`'s `%B` knows them. -/
def monthNamesFull : List String :=
  ["January", "February", "March", "April", "May", "June",
   "July", "August", "September", "October", "November", "December"]

/-- The twelve abbreviated month names, as `strptime`'s `%b` knows them. -/
def monthNamesAbbr : List String :=
  ["Jan", "Feb", "Mar", "Apr", "May", "Jun",
   "Jul", "Aug", "Sep", "Oct", "Nov", "Dec"]

/-- Case-insensitive prefix match: if `p` is a prefix of `cs` up to ASCII
case, return the remaining characters. -/
def ciPref : List Char → List Char → Option (List Char)
  | [], cs => some cs
  | _ :: _, [] => none
  | p :: ps, c :: cs => if p.toLower = c.toLower then ciPref ps cs else none

/-- Try the month names in order (1-indexed), returning the first whose
name is a case-insensitive prefix of the input, with the rest of the
input.  No month name is a prefix of another, so at most one can match,
which makes the try-in-order of the `strptime` regex deterministic. -/
def monthMatchGo : List String → ℕ → List Char → Option (ℕ × List Char)
  | [], _, _ => none
  | n :: ns, i, cs =>
    match ciPref n.data cs with
    | some rest => some (i, rest)
    | none => monthMatchGo ns (i + 1) cs

/-- Month-name matcher for `%B` / `%b`. -/
def monthMatch (names : List String) (cs : List Char) : Option (ℕ × List Char) :=
  monthMatchGo names 1 cs

/-- `strptime` `%Y`: exactly four decimal digits. -/
def year4Parse : List Char → Option (ℕ × List Char)
  | a :: b :: c :: d :: rest =>
    if a.isDigit && b.isDigit && c.isDigit && d.isDigit then
      some (((digitVal a * 10 + digitVal b) * 10 + digitVal c) * 10 + digitVal d, rest)
    else none
  | _ => none

/-- `strptime` `%d`, regex `(3[01]|[12]\d|0[1-9]|[1-9])`: the candidate
parses in the order the regex alternation tries them (two digits first,
then one digit). -/
def dayCands : List Char → List (ℕ × List Char)
  | a :: b :: rest =>
    (if (a = '3' && (b = '0' || b = '1')) ||
        ((a = '1' || a = '2') && b.isDigit) ||
        (a = '0' && b.isDigit && b ≠ '0') then
      [(digitVal a * 10 + digitVal b, rest)]
    else []) ++
    (if a.isDigit && a ≠ '0' then [(digitVal a, b :: rest)] else [])
  | [a] => if a.isDigit && a ≠ '0' then [(digitVal a, [])] else []
  | [] => []

/-- `strptime` `%m`, regex `(1[0-2]|0[1-9]|[1-9])`, candidates in regex
alternation order. -/
def monCands : List Char → List (ℕ × List Char)
  | a :: b :: rest =>
    (if (a = '1' && (b = '0' || b = '1' || b = '2')) ||
        (a = '0' && b.isDigit && b ≠ '0') then
      [(digitVal a * 10 + digitVal b, rest)]
    else []) ++
    (if a.isDigit && a ≠ '0' then [(digitVal a, b :: rest)] else [])
  | [a] => if a.isDigit && a ≠ '0' then [(digitVal a, [])] else []
  | [] => []

/-- One directive or literal of a `strptime` format string. -/
inductive Tok where
  | mB : Tok
  | mb : Tok
  | dD : Tok
  | mM : Tok
  | yY : Tok
  | lit : Char → Tok
  | ws : Tok
deriving DecidableEq, Repr

/-- Run a tokenized `strptime` format against the input characters,
threading the (year, month, day) state, with the backtracking the regex
alternations of `%d`/`%m` perform; the whole input must be consumed
(`strptime` raises on unconverted data).  Initial state is `strptime`'s
defaults (1900, 1, 1). -/
def matchToks : List Tok → List Char → ℕ → ℕ → ℕ → Option (ℕ × ℕ × ℕ)
  | [], [], y, m, d => some (y, m, d)
  | [], _ :: _, _, _, _ => none
  | Tok.lit ch :: ts, cs, y, m, d =>
    match cs with
    | [] => none
    | c :: cs' => if c = ch then matchToks ts cs' y m d else none
  | Tok.ws :: ts, cs, y, m, d =>
    if (cs.takeWhile pyIsSpace).isEmpty then none
    else matchToks ts (cs.dropWhile pyIsSpace) y m d
  | Tok.yY :: ts, cs, y, m, d =>
    match year4Parse cs with
    | some (v, rest) => matchToks ts rest v m d
    | none => none
  | Tok.mB :: ts, cs, y, m, d =>
    match monthMatch monthNamesFull cs with
    | some (v, rest) => matchToks ts rest y v d
    | none => none
  | Tok.mb :: ts, cs, y, m, d =>
    match monthMatch monthNamesAbbr cs with
    | some (v, rest) => matchToks ts rest y v d
    | none => none
  | Tok.dD :: ts, cs, y, m, d =>
    match dayCands cs with
    | [] => none
    | [p] => matchToks ts p.2 y m p.1
    | p :: q :: _ =>
      match matchToks ts p.2 y m p.1 with
      | some r => some r
      | none => matchToks ts q.2 y m q.1
  | Tok.mM :: ts, cs, y, m, d =>
    match monCands cs with
    | [] => none
    | [p] => matchToks ts p.2 y p.1 d
    | p :: q :: _ =>
      match matchToks ts p.2 y p.1 d with
      | some r => some r
      | none => matchToks ts q.2 y q.1 d

/-- Gregorian leap year, as `datetime` validates it. -/
def isLeap (y : ℕ) : Bool := y % 4 = 0 && (y % 100 ≠ 0 || y % 400 = 0)

/-- Days in a month, as `datetime` validates it. -/
def daysInMonth (y m : ℕ) : ℕ :=
  if m = 2 then (if isLeap y then 29 else 28)
  else if m = 4 || m = 6 || m = 9 || m = 11 then 30
  else 31

/-- `datetime(y, m, d)` constructor validity (`MINYEAR = 1`). -/
def validDate (y m d : ℕ) : Bool :=
  1 ≤ y && 1 ≤ m && m ≤ 12 && 1 ≤ d && d ≤ daysInMonth y m

/-- `datetime.strptime(data, fmt)` for one tokenized format: regex match
first, then `datetime` construction, which can still raise `ValueError`
(e.g. April 31) — that is a `none` here, the caller moves on. -/
def tryFormat (toks : List Tok) (cs : List Char) : Option Dt :=
  match matchToks toks cs 1900 1 1 with
  | some (y, m, d) => if validDate y m d then some ⟨y, m, d⟩ else none
  | none => none

def fmtBdY : List Tok := [Tok.mB, Tok.ws, Tok.dD, Tok.lit ',', Tok.ws, Tok.yY]
def fmtbdY : List Tok := [Tok.mb, Tok.ws, Tok.dD, Tok.lit ',', Tok.ws, Tok.yY]
def fmtmdY : List Tok := [Tok.mM, Tok.lit '/', Tok.dD, Tok.lit '/', Tok.yY]
def fmtYmd : List Tok := [Tok.yY, Tok.lit '-', Tok.mM, Tok.lit '-', Tok.dD]
def fmtdmY : List Tok := [Tok.dD, Tok.lit '/', Tok.mM, Tok.lit '/', Tok.yY]
def fmtBY : List Tok := [Tok.mB, Tok.ws, Tok.yY]
def fmtbY : List Tok := [Tok.mb, Tok.ws, Tok.yY]
def fmtYm : List Tok := [Tok.yY, Tok.lit '-', Tok.mM]

/-- The `date_formats` list of `ReviewScraper.parse_date`, in source
order: `%B %d, %Y`, `%b %d, %Y`, `%m/%d/%Y`, `%Y-%m-%d`, `%d/%m/%Y`,
`%B %Y`, `%b %Y`, `%Y-%m`. -/
def date_formats : List (List Tok) :=
  [fmtBdY, fmtbdY, fmtmdY, fmtYmd, fmtdmY, fmtBY, fmtbY, fmtYm]

/-- First `some` produced by `f` over a list (the `for fmt in
date_formats: try ... except ValueError: continue` loop). -/
def firstSomeP {α β : Type} : List α → (α → Option β) → Option β
  | [], _ => none
  | a :: as, f =>
    match f a with
    | some b => some b
    | none => firstSomeP as f

/-- The year-extraction fallback `re.search(r'\b(20\d{2})\b', s)`:
scan left to right for the first `20dd` digit block flanked by word
boundaries; the boolean argument records whether the previous character
was a word character. -/
def yearScan : Bool → List Char → Option ℕ
  | _, [] => none
  | prevW, c1 :: rest =>
    match rest with
    | c2 :: c3 :: c4 :: rest2 =>
      if !prevW && c1 = '2' && c2 = '0' && c3.isDigit && c4.isDigit &&
         (match rest2 with
          | [] => true
          | r :: _ => !(isWordChar r)) then
        some (2000 + digitVal c3 * 10 + digitVal c4)
      else yearScan (isWordChar c1) rest
    | _ => yearScan (isWordChar c1) rest

/-- `ReviewScraper.parse_date`: empty-string guard, strip, cleanup,
the ordered format list, then the bare-year fallback resolved to
January 1st; `none` is the "could not parse" outcome (the Python code
logs and returns `None`, it never raises). -/
def parse_date (s : String) : Option Dt :=
  if s.isEmpty then none
  else
    let cs := (pyStrip s.data).filter keepChar
    match firstSomeP date_formats (fun f => tryFormat f cs) with
    | some dt => some dt
    | none =>
      match yearScan false cs with
      | some yr => some ⟨yr, 1, 1⟩
      | none => none

/-- Modelled from the spec: the format order of §4.2 / the C7 claim —
full month-day-year, abbreviated month-day-year, the two numeric
orderings of month/day/year, then ISO year-month-day, month-year, ISO
year-month.  It differs from `date_formats` only in placing `%Y-%m-%d`
after `%d/%m/%Y` instead of before it. -/
def date_formats_spec : List (List Tok) :=
  [fmtBdY, fmtbdY, fmtmdY, fmtdmY, fmtYmd, fmtBY, fmtbY, fmtYm]

/-- Modelled from the spec: `parse_date` with the spec's format order,
compared with the source's `parse_date` in the C7 theorem. -/
def parse_date_spec (s : String) : Option Dt :=
  if s.isEmpty then none
  else
    let cs := (pyStrip s.data).filter keepChar
    match firstSomeP date_formats_spec (fun f => tryFormat f cs) with
    | some dt => some dt
    | none =>
      match yearScan false cs with
      | some yr => some ⟨yr, 1, 1⟩
      | none => none

example : parse_date "August 15, 2024" = some ⟨2024, 8, 15⟩ := by decide
example : parse_date "Aug 15, 2024" = some ⟨2024, 8, 15⟩ := by decide
example : parse_date "8/15/2024" = some ⟨2024, 8, 15⟩ := by decide
example : parse_date "2024-08-15" = some ⟨2024, 8, 15⟩ := by decide
example : parse_date "15/8/2024" = some ⟨2024, 8, 15⟩ := by decide
example : parse_date "July 2024" = some ⟨2024, 7, 1⟩ := by decide
example : parse_date "2024-07" = some ⟨2024, 7, 1⟩ := by decide
example : parse_date "reviewed in 2023!" = some ⟨2023, 1, 1⟩ := by decide
example : parse_date "no date here" = none := by decide
example : parse_date "" = none := by decide
example : parse_date "February 30, 2024" = some ⟨2024, 1, 1⟩ := by decide
example : parse_date "13/5/2024" = some ⟨2024, 5, 13⟩ := by decide

/-! ## The common review record (`@dataclass Review` of `review_scraper.py`) -/

/-- The `Review` dataclass. -/
structure Review where
  title : String
  description : String
  date : String
  rating : Option ℚ
  reviewer_name : Option String
  reviewer_title : Option String
  company_size : Option String
  source : String
  verified : Bool
  pros : Option String
  cons : Option String
deriving DecidableEq, Repr

/-! ## G2 adapter

An HTML element located by a CSS selector is modelled by the data the
scraper reads off it: its stripped text (`get_text(strip=True)`), its raw
text (`get_text()`), its `datetime` attribute (`get('datetime', '')`,
empty when absent) and the number of sub-elements matching the
filled-star selector used by the rating extraction. -/

structure Elem where
  text : String
  rawText : String
  datetimeAttr : String
  filledStars : ℕ

/-- A G2 review container: `selectOne sel` is what
`container.select_one(sel)` returns. -/
structure G2Container where
  selectOne : String → Option Elem

def g2TitleSelectors : List String :=
  ["h3", "h4", "[data-qa=\"review-title\"]", ".review-title", "strong"]

def g2TextSelectors : List String :=
  ["[data-qa=\"review-text\"]", ".review-text", "div[class*=\"description\"]",
   "p", "div[class*=\"content\"]"]

def g2DateSelectors : List String :=
  ["time", "[data-qa=\"review-date\"]", ".review-date", "span[class*=\"date\"]"]

def g2RatingSelectors : List String :=
  [".stars", "[class*=\"rating\"]", "[class*=\"star\"]"]

def g2ReviewerSelectors : List String :=
  [".reviewer-name", "[class*=\"author\"]", "[class*=\"reviewer\"]"]

/-- The shared selector-chain shape `for sel in sels: elem = select_one(sel);
if elem and elem.get_text(strip=True): take it; break`. -/
def firstNonEmptyText (c : G2Container) : List String → Option String
  | [] => none
  | s :: rest =>
    match c.selectOne s with
    | some e => if e.text ≠ "" then some e.text else firstNonEmptyText c rest
    | none => firstNonEmptyText c rest

/-- `date_elem.get_text(strip=True) or date_elem.get('datetime', '')`. -/
def textOrDatetime (e : Elem) : String :=
  if e.text ≠ "" then e.text else e.datetimeAttr

/-- The date selector chain of `_parse_g2_review`: first selector whose
element exists and yields non-empty text-or-datetime. -/
def g2DateText (c : G2Container) : List String → Option String
  | [] => none
  | s :: rest =>
    match c.selectOne s with
    | some e =>
      if textOrDatetime e ≠ "" then some (textOrDatetime e) else g2DateText c rest
    | none => g2DateText c rest

/-- `strftime("%B %d, %Y")` of a date: full month name, zero-padded
two-digit day, comma, four-digit year (years 1000-9999 print as their
four decimal digits). -/
def digitChars : List Char := ['0', '1', '2', '3', '4', '5', '6', '7', '8', '9']

def digitOf (k : ℕ) : Char := digitChars.getD k '0'

def pad2 (n : ℕ) : String := String.mk [digitOf (n / 10), digitOf (n % 10)]

def pad4 (n : ℕ) : String :=
  String.mk [digitOf (n / 1000), digitOf (n / 100 % 10), digitOf (n / 10 % 10), digitOf (n % 10)]

def strftimeBdY (dt : Dt) : String :=
  monthNamesFull.getD (dt.m - 1) "" ++ " " ++ pad2 dt.d ++ ", " ++ pad4 dt.y

/-- First element of the rating-selector chain that exists (the Python
loop breaks on the first truthy element whether or not a rating was
extracted from it). -/
def g2FirstElem (c : G2Container) : List String → Option Elem
  | [] => none
  | s :: rest =>
    match c.selectOne s with
    | some e => some e
    | none => g2FirstElem c rest

/-- The regex search for the first decimal number in the rating text:
first digit run, with a fractional part when a dot followed by digits
follows it (Python `float` modelled by `ℚ`). -/
def numFromChars (cs : List Char) : ℚ :=
  let ds := cs.takeWhile Char.isDigit
  let rest := cs.dropWhile Char.isDigit
  match rest with
  | '.' :: rest2 =>
    let fs := rest2.takeWhile Char.isDigit
    if fs.isEmpty then (digitsToNat ds : ℚ)
    else (digitsToNat ds : ℚ) + (digitsToNat fs : ℚ) / ((10 : ℚ) ^ fs.length)
  | _ => (digitsToNat ds : ℚ)

def scanFirstNum : List Char → Option ℚ
  | [] => none
  | c :: cs => if c.isDigit then some (numFromChars (c :: cs)) else scanFirstNum cs

/-- The rating extraction of `_parse_g2_review`: on the first present
rating element, count filled stars, else regex the first number out of
its raw text. -/
def g2Rating (c : G2Container) : Option ℚ :=
  match g2FirstElem c g2RatingSelectors with
  | none => none
  | some e =>
    if e.filledStars ≠ 0 then some (e.filledStars : ℚ)
    else scanFirstNum e.rawText.data

/-- `G2Scraper._parse_g2_review` (the `now` parameter is the run's
`datetime.now()` used by the date fallback).  The Python `try/except`
cannot fire in the model, where every extraction step is total, so the
result is always a review. -/
def parseG2Review (now : Dt) (c : G2Container) : Review :=
  { title := (firstNonEmptyText c g2TitleSelectors).getD "No title"
    description := (firstNonEmptyText c g2TextSelectors).getD "No description"
    date := (g2DateText c g2DateSelectors).getD (strftimeBdY now)
    rating := g2Rating c
    reviewer_name := some ((firstNonEmptyText c g2ReviewerSelectors).getD "Anonymous")
    reviewer_title := none
    company_size := none
    source := "G2"
    verified := false
    pros := none
    cons := none }

/-- The inner per-page loop of `G2Scraper.scrape_reviews`: walk the
containers, keep in-window reviews (appending and counting them),
return early with the stop flag on the first review parsed strictly
before `start_date`, and skip everything else (too new or unparseable). -/
def g2ProcessContainers (now sd ed : Dt) :
    List G2Container → List Review → ℕ → List Review × ℕ × Bool
  | [], acc, cnt => (acc, cnt, false)
  | c :: rest, acc, cnt =>
    let r := parseG2Review now c
    match parse_date r.date with
    | some dt =>
      if dtLe sd dt && dtLe dt ed then
        g2ProcessContainers now sd ed rest (acc ++ [r]) (cnt + 1)
      else if dtLt dt sd then (acc, cnt, true)
      else g2ProcessContainers now sd ed rest acc cnt
    | none => g2ProcessContainers now sd ed rest acc cnt

/-- The page loop of `G2Scraper.scrape_reviews`.  `pages p` is the
network/HTML oracle for page number `p`: `none` when every candidate
page URL failed to fetch (the `if not soup: break` case), otherwise the
review containers found on the fetched document (possibly `[]`, the
`if not review_containers: break` case).  The fuel starts at
`max_pages = 10`. -/
def g2Loop (now : Dt) (pages : ℕ → Option (List G2Container)) (sd ed : Dt) :
    ℕ → ℕ → List Review → List Review
  | 0, _, acc => acc
  | fuel + 1, page, acc =>
    match pages page with
    | none => acc
    | some cs =>
      if cs.isEmpty then acc
      else
        match g2ProcessContainers now sd ed cs acc 0 with
        | (acc', _, true) => acc'
        | (acc', cnt, false) =>
          if cnt = 0 then acc' else g2Loop now pages sd ed fuel (page + 1) acc'

/-- `G2Scraper.scrape_reviews`. -/
def g2ScrapeReviews (now : Dt) (pages : ℕ → Option (List G2Container))
    (sd ed : Dt) : List Review :=
  g2Loop now pages sd ed 10 1 []

/-! ## Capterra adapter -/

/-- A Capterra review container: `heading` is the stripped text of
`container.find(['h3', 'h4', 'h5'])` when such an element exists. -/
structure CapContainer where
  heading : Option String

/-- `CapterraScraper._parse_capterra_review`: title from the heading
element, the remaining fields hard-coded sample values. -/
def parseCapterraReview (c : CapContainer) : Review :=
  { title := c.heading.getD "No title"
    description := "Sample description"
    date := "August 2024"
    rating := some 4
    reviewer_name := some "Sample Reviewer"
    reviewer_title := none
    company_size := none
    source := "Capterra"
    verified := false
    pros := none
    cons := none }

/-- The element loop of `CapterraScraper.scrape_reviews`: every parsed
review whose parsed date falls in the window is kept; nothing ever
terminates the walk early. -/
def capGo (sd ed : Dt) : List CapContainer → List Review
  | [] => []
  | c :: rest =>
    let r := parseCapterraReview c
    match parse_date r.date with
    | some dt =>
      if dtLe sd dt && dtLe dt ed then r :: capGo sd ed rest else capGo sd ed rest
    | none => capGo sd ed rest

/-- `CapterraScraper.scrape_reviews`: single page; `fetch` is the
network/HTML oracle giving the review elements found on the product
page (`none` when the fetch failed). -/
def capScrapeReviews (fetch : Option (List CapContainer)) (sd ed : Dt) : List Review :=
  match fetch with
  | none => []
  | some elems => capGo sd ed elems

/-! ## TrustRadius adapter -/

/-- The fixed sample review `TrustRadiusScraper.scrape_reviews` builds
for every element it finds. -/
def trSampleReview : Review :=
  { title := "Sample TrustRadius Review"
    description := "This is a sample review from TrustRadius with detailed pros and cons."
    date := "July 2024"
    rating := some (9 / 2)
    reviewer_name := some "TR Reviewer"
    reviewer_title := some "IT Manager"
    company_size := some "201-500 employees"
    source := "TrustRadius"
    verified := true
    pros := some "Great features and support"
    cons := some "Steep learning curve" }

/-- `TrustRadiusScraper.scrape_reviews`: `fetch` is the network/HTML
oracle for the single product-page fetch, each found element is a
`Unit` (its content is never read); the first five elements each yield
the fixed sample review, and `start_date`/`end_date` are accepted but
never consulted. -/
def trScrapeReviews (fetch : Option (List Unit)) (sd ed : Dt) : List Review :=
  match fetch with
  | none => []
  | some elems => (elems.take 5).map (fun _ => trSampleReview)

example : parse_date trSampleReview.date = some ⟨2024, 7, 1⟩ := by decide
example : parse_date "August 2024" = some ⟨2024, 8, 1⟩ := by decide

/-! ## Fallback synthesizer (`MockDataGenerator`) -/

def sampleTitles (company : String) : List String :=
  ["Excellent " ++ company ++ " experience",
   "Great tool for our team - " ++ company ++ " rocks!",
   "Mixed feelings about " ++ company,
   company ++ " has transformed our workflow",
   "Good product but could be better - " ++ company ++ " review"]

def sampleDescriptions (company : String) : List String :=
  ["We\x27ve been using " ++ company ++ " for over a year and it has significantly improved our productivity. The interface is intuitive and the features are comprehensive.",
   "Great experience with " ++ company ++ ". Customer support is responsive and the product delivers on its promises. Highly recommended for teams of our size.",
   "While " ++ company ++ " has good features, we found some limitations in customization. Overall decent but not perfect for our use case.",
   company ++ " integrates well with our existing tools. The learning curve was manageable and our team adapted quickly.",
   "Mixed experience with " ++ company ++ ". Some features are excellent while others need improvement. Would consider alternatives."]

/-- `random.uniform(lo, hi)` is `lo + (hi - lo) * random.random()`;
`u` stands for the `random.random()` draw in `[0, 1)`. -/
def pyUniform (lo hi u : ℚ) : ℚ := lo + (hi - lo) * u

/-- Python `str(n)` for the naturals interpolated into mock fields
(decimal without leading zeros; exact for `n < 10000`, which covers the
interpolations below — no theorem below inspects these strings). -/
def natStr (n : ℕ) : String :=
  if n = 0 then "0" else String.mk ((pad4 n).data.dropWhile (fun c => c = '0'))

/-- `MockDataGenerator.generate_mock_reviews(company_name, source, count)`;
`u i` is the `random.random()` draw behind the `random.uniform(3.0, 5.0)`
call of iteration `i`. -/
def generate_mock_reviews (company source : String) (count : ℕ) (u : ℕ → ℚ) :
    List Review :=
  (List.range count).map (fun i =>
    { title := (sampleTitles company).getD (i % 5) ""
      description := (sampleDescriptions company).getD (i % 5) ""
      date := "August " ++ natStr (10 + i) ++ ", 2024"
      rating := some (pyUniform 3 5 (u i))
      reviewer_name := some ("Demo User " ++ natStr (i + 1))
      reviewer_title := some (if i % 2 = 0 then "Manager" else "Analyst")
      company_size := some (if i % 3 = 0 then "51-200 employees" else "11-50 employees")
      source := source
      verified := i % 2 = 0
      pros := if source = "TrustRadius" then some "Good integration, Easy to use" else none
      cons := if source = "TrustRadius" then some "Could be cheaper, Limited customization" else none })

/-! ## Orchestrator (`ReviewScrapingTool.scrape_reviews`)

The three scraper objects of the registry are modelled by oracles: each
bundles the observable behaviour of `get_direct_url` and
`scrape_reviews`, together with the request-layer interactions (HTTP
fetches, with their header rotation and pacing sleeps) that behaviour
causes, as an event trace.  The mock generator performs no request,
so it contributes no events. -/

/-- One request-layer interaction (a fetch of a URL, with its attendant
header rotation and pacing delay). -/
structure NetEvent where
  url : String
deriving DecidableEq, Repr

/-- The observable behaviour of one scraper object of the registry. -/
structure ScraperO where
  get_direct_url : String → Option String × List NetEvent
  scrape : String → Dt → Dt → List Review × List NetEvent

/-- The output dictionary built by the comprehension at the end of
`ReviewScrapingTool.scrape_reviews` (same eleven keys as `Review`). -/
structure ReviewD where
  title : String
  description : String
  date : String
  rating : Option ℚ
  reviewer_name : Option String
  reviewer_title : Option String
  company_size : Option String
  source : String
  verified : Bool
  pros : Option String
  cons : Option String
deriving DecidableEq, Repr

/-- The per-review dictionary conversion. -/
def toDict (r : Review) : ReviewD :=
  { title := r.title, description := r.description, date := r.date,
    rating := r.rating, reviewer_name := r.reviewer_name,
    reviewer_title := r.reviewer_title, company_size := r.company_size,
    source := r.source, verified := r.verified, pros := r.pros, cons := r.cons }

/-- Python `str.upper()` (ASCII). -/
def pyUpper (s : String) : String := String.mk (s.data.map Char.toUpper)

/-- Python `str.lower()` (ASCII). -/
def pyLower (s : String) : String := String.mk (s.data.map Char.toLower)

/-- `datetime.strptime(s, "%Y-%m-%d")`, as the orchestrator validates
its date inputs (no cleanup, the raw string must match in full). -/
def parseYmd (s : String) : Option Dt := tryFormat fmtYmd s.data

/-- The registry keys built in `ReviewScrapingTool.__init__`. -/
def registryKeys : List String := ["g2", "capterra", "trustradius"]

/-- `ReviewScrapingTool.scrape_reviews(company_name, start_date,
end_date, source, use_mock)`, returning the dictionaries together with
the trace of request-layer events of the run.  `og2`, `ocap`, `otr` are
the behaviours of the three registry scrapers, `u` the random stream
behind mock-rating draws. -/
def toolScrapeReviews (og2 ocap otr : ScraperO)
    (company start_date end_date source : String) (use_mock : Bool)
    (u : ℕ → ℚ) : List ReviewD × List NetEvent :=
  match parseYmd start_date, parseYmd end_date with
  | some sd, some ed =>
    let registry := [("g2", og2), ("capterra", ocap), ("trustradius", otr)]
    match registry.lookup (pyLower source) with
    | none => ([], [])
    | some sc =>
      if use_mock then
        ((generate_mock_reviews company (pyUpper source) 5 u).map toDict, [])
      else
        match sc.get_direct_url company with
        | (none, ev) =>
          ((generate_mock_reviews company (pyUpper source) 5 u).map toDict, ev)
        | (some url, ev) =>
          if (sc.scrape url sd ed).1.isEmpty then
            ((generate_mock_reviews company (pyUpper source) 5 u).map toDict,
              ev ++ (sc.scrape url sd ed).2)
          else ((sc.scrape url sd ed).1.map toDict, ev ++ (sc.scrape url sd ed).2)
  | _, _ => ([], [])

/-! ## GitHub adapter (`github_reviews.py`) -/

/-- A GitHub issue as the REST boundary delivers it: the fields
`GitHubScraper.get_issues` reads.  `body` is `none` when the JSON body
is `null`; the reaction mapping is an association list of counts (a
Python dict, so its keys are distinct, though no theorem below needs
that). -/
structure Issue where
  title : String
  body : Option String
  author : String
  created_at : String
  html_url : String
  state : String
  labels : List String
  reactions : List (String × ℕ)
deriving DecidableEq, Repr

/-- The `GitHubReview` dataclass, as `get_issues` populates it. -/
structure GitHubReview where
  title : String
  body : String
  author : String
  date : String
  type : String
  url : String
  state : Option String
  labels : List String
  reactions : List (String × ℕ)
  rating : Option ℚ
deriving DecidableEq, Repr

/-- `reactions.get(k, 0)`. -/
def rget (rs : List (String × ℕ)) (k : String) : ℕ := (rs.lookup k).getD 0

/-- `sum(reactions.values())`. -/
def totalReactions (rs : List (String × ℕ)) : ℕ := (rs.map Prod.snd).sum

/-- `reactions.get("+1", 0) + reactions.get("heart", 0) + reactions.get("hooray", 0)`. -/
def positiveReactions (rs : List (String × ℕ)) : ℕ :=
  rget rs "+1" + rget rs "heart" + rget rs "hooray"

/-- `(positive / total_reactions * 5) if total_reactions > 0 else None`. -/
def reactionRating (rs : List (String × ℕ)) : Option ℚ :=
  if 0 < totalReactions rs then
    some ((positiveReactions rs : ℚ) / (totalReactions rs : ℚ) * 5)
  else none

/-- `created_at[:10]`. -/
def created10 (i : Issue) : String := i.created_at.take 10

/-- The `GitHubReview` built for one in-window issue. -/
def issueToReview (i : Issue) : GitHubReview :=
  { title := i.title
    body := i.body.getD ""
    author := i.author
    date := created10 i
    type := "issue"
    url := i.html_url
    state := some i.state
    labels := i.labels
    reactions := i.reactions
    rating := reactionRating i.reactions }

/-- `created_at[:10] < start_date` (Python compares the strings
lexicographically, which is what `<` on `String` is). -/
def ghTooOld (sd : String) (i : Issue) : Bool := created10 i < sd

/-- `created_at[:10] <= end_date`. -/
def ghInEnd (ed : String) (i : Issue) : Bool := created10 i ≤ ed

/-- The per-page loop of `get_issues`: append in-window issues, return
early (flag `true`) on the first issue created strictly before
`start_date`, skip issues created after `end_date` (dates compared as
`YYYY-MM-DD` strings). -/
def ghProcessIssues (sd ed : String) :
    List Issue → List GitHubReview → List GitHubReview × Bool
  | [], acc => (acc, false)
  | i :: rest, acc =>
    if ghTooOld sd i then (acc, true)
    else if ghInEnd ed i then ghProcessIssues sd ed rest (acc ++ [issueToReview i])
    else ghProcessIssues sd ed rest acc

/-- The page loop of `get_issues`.  The REST boundary is modelled as the
finite list of successive page payloads (the API eventually returns an
empty page, the `if not issues: break` case; pages beyond the list are
empty). -/
def ghGetIssuesGo (sd ed : String) :
    List (List Issue) → List GitHubReview → List GitHubReview
  | [], acc => acc
  | pg :: rest, acc =>
    if pg.isEmpty then acc
    else
      match ghProcessIssues sd ed pg acc with
      | (acc', true) => acc'
      | (acc', false) => ghGetIssuesGo sd ed rest acc'

/-- `GitHubScraper.get_issues(owner, repo, start_date, end_date)` over
the page oracle. -/
def ghGetIssues (pages : List (List Issue)) (sd ed : String) : List GitHubReview :=
  ghGetIssuesGo sd ed pages []

/-- The stream of issues the page loop can ever look at: the pages up to
(excluding) the first empty one, flattened in order. -/
def ghStream (pages : List (List Issue)) : List Issue :=
  (pages.takeWhile (fun pg => !pg.isEmpty)).flatten

/-! ## Request layer (`EnhancedSession` / `ReviewScraper.make_request`) -/

/-- `Retry(total=3, ...)` in `EnhancedSession.__init__`. -/
def retry_total : ℕ := 3

/-- `Retry(..., backoff_factor=1, ...)`. -/
def backoff_factor : ℚ := 1

/-- `Retry(..., status_forcelist=[429, 500, 502, 503, 504])`. -/
def status_forcelist : List ℕ := [429, 500, 502, 503, 504]

/-- A status is retried exactly when it is on the forcelist. -/
def shouldRetryStatus (st : ℕ) : Bool := st ∈ status_forcelist

/-- Modelled from the spec: the exponential backoff delay before the
`k`-th retry of the transport configured by `EnhancedSession` (the
retry/backoff loop itself runs inside the HTTP stack, outside this
repository; §4.1 specifies bounded retries with exponential backoff). -/
def backoffDelay (k : ℕ) : ℚ := backoff_factor * 2 ^ k

/-- Modelled from the spec: the bounded retry loop of the transport
configured by `EnhancedSession` — attempt statuses are drawn from the
stream `resps`, a forcelisted status is retried while attempts remain,
any other status is returned, and exhaustion is the fault
(`MaxRetryError`, surfacing as a `requests.RequestException`).  The
result carries the index of the returning attempt. -/
def retryGo (resps : ℕ → ℕ) : ℕ → ℕ → Except Unit (ℕ × ℕ)
  | 0, _ => Except.error ()
  | fuel + 1, i =>
    if shouldRetryStatus (resps i) then retryGo resps fuel (i + 1)
    else Except.ok (resps i, i)

/-- One `session.get` through the configured transport: the initial
attempt plus at most `retry_total` retries. -/
def sessionGet (resps : ℕ → ℕ) : Except Unit (ℕ × ℕ) :=
  retryGo resps (retry_total + 1) 0

/-- `ReviewScraper.make_request`: a transport fault is caught
(`except requests.RequestException`) and becomes `none`; a delivered
status is pushed through `raise_for_status`, whose `HTTPError` (any
4xx/5xx) is caught by the same handler; otherwise the body (the `doc`
argument, what `BeautifulSoup` parses out of the response) is
returned. -/
def make_request {α : Type} (resps : ℕ → ℕ) (doc : α) : Option α :=
  match sessionGet resps with
  | Except.error _ => none
  | Except.ok (st, _) => if 400 ≤ st ∧ st < 600 then none else some doc

/-! ## Shared helper lemmas -/

/-- `dict.get` on a cons cell. -/
theorem rget_cons (k : String) (v : ℕ) (t : List (String × ℕ)) (key : String) :
    rget ((k, v) :: t) key = if key = k then v else rget t key := by
  simp only [rget, List.lookup]
  by_cases h : key = k
  · simp [h]
  · simp [h, beq_eq_false_iff_ne.mpr h]

/-- The three positive reaction counts are counts of distinct keys, so
their sum never exceeds the sum of all counts. -/
theorem positive_le_total (rs : List (String × ℕ)) :
    positiveReactions rs ≤ totalReactions rs := by
  induction rs with
  | nil => simp [positiveReactions, totalReactions, rget, List.lookup]
  | cons h t ih =>
    obtain ⟨k, v⟩ := h
    have e1 := rget_cons k v t "+1"
    have e2 := rget_cons k v t "heart"
    have e3 := rget_cons k v t "hooray"
    simp only [positiveReactions, totalReactions, List.map_cons, List.sum_cons] at *
    by_cases h1 : ("+1" : String) = k
    · have h2 : ¬("heart" : String) = k := by rw [← h1]; decide
      have h3 : ¬("hooray" : String) = k := by rw [← h1]; decide
      rw [e1, e2, e3]
      simp only [h1, h2, h3, if_true, if_false, if_pos rfl, if_neg h2, if_neg h3]
      omega
    · by_cases h2 : ("heart" : String) = k
      · have h3 : ¬("hooray" : String) = k := by rw [← h2]; decide
        rw [e1, e2, e3]
        simp only [if_neg h1, if_pos h2, if_neg h3]
        omega
      · by_cases h3 : ("hooray" : String) = k
        · rw [e1, e2, e3]
          simp only [if_neg h1, if_neg h2, if_pos h3]
          omega
        · rw [e1, e2, e3]
          simp only [if_neg h1, if_neg h2, if_neg h3]
          omega

/-- C3 / C3 witness example issue: the reactions of the spec's worked
example. -/
def ghExampleIssue : Issue :=
  { title := "Example issue"
    body := some "body"
    author := "alice"
    created_at := "2024-06-01T00:00:00Z"
    html_url := "https://example.invalid/issue/1"
    state := "open"
    labels := []
    reactions := [("+1", 3), ("heart", 1), ("hooray", 0), ("confused", 2)] }

/-- C3: for every item carrying a reaction-count mapping, the derived
rating is `(positive / total) * 5` when the total of all reaction
counts is positive, always landing in `[0, 5]`, and is absent (not
zero) when the total is zero, so no division by zero ever occurs. -/
theorem C3_reaction_rating (i : Issue) :
    (0 < totalReactions i.reactions →
      (issueToReview i).rating =
        some ((positiveReactions i.reactions : ℚ) / (totalReactions i.reactions : ℚ) * 5) ∧
      ∀ q : ℚ, (issueToReview i).rating = some q → 0 ≤ q ∧ q ≤ 5) ∧
    (totalReactions i.reactions = 0 → (issueToReview i).rating = none) := by
  constructor
  · intro hpos
    have hratingeq : (issueToReview i).rating =
        some ((positiveReactions i.reactions : ℚ) / (totalReactions i.reactions : ℚ) * 5) := by
      simp [issueToReview, reactionRating, hpos]
    refine ⟨hratingeq, ?_⟩
    intro q hq
    rw [hratingeq] at hq
    have hq' : q = (positiveReactions i.reactions : ℚ) / (totalReactions i.reactions : ℚ) * 5 :=
      (Option.some_injective ℚ hq).symm
    have hple : (positiveReactions i.reactions : ℚ) ≤ (totalReactions i.reactions : ℚ) := by
      exact_mod_cast positive_le_total i.reactions
    have htpos : (0 : ℚ) < (totalReactions i.reactions : ℚ) := by exact_mod_cast hpos
    have hdiv0 : (0 : ℚ) ≤ (positiveReactions i.reactions : ℚ) / (totalReactions i.reactions : ℚ) :=
      div_nonneg (by positivity) (le_of_lt htpos)
    have hdiv1 : (positiveReactions i.reactions : ℚ) / (totalReactions i.reactions : ℚ) ≤ 1 :=
      (div_le_one htpos).mpr hple
    constructor
    · rw [hq']; nlinarith
    · rw [hq']; nlinarith
  · intro hz
    simp [issueToReview, reactionRating, hz]

/-- C3 witness: on the spec's example reactions the rating is
`(3 + 1 + 0) / 6 * 5 = 10 / 3`, inside `[0, 5]`. -/
theorem C3_reaction_rating_witness :
    (issueToReview ghExampleIssue).rating = some (10 / 3 : ℚ) ∧
    (0 : ℚ) ≤ 10 / 3 ∧ (10 / 3 : ℚ) ≤ 5 := by
  have h := (C3_reaction_rating ghExampleIssue).1 (by decide)
  have hp : positiveReactions ghExampleIssue.reactions = 4 := by decide
  have ht : totalReactions ghExampleIssue.reactions = 6 := by decide
  have heq := h.1
  rw [hp, ht] at heq
  norm_num at heq
  exact ⟨heq, by norm_num, by norm_num⟩

/-- C5: the fallback synthesizer returns exactly `count` records for
any `count ≥ 1` (hence a non-empty result), all tagged with the given
source and rated inside `[3.0, 5.0]` (`u` is the stream of
`random.random()` draws, which lie in `[0, 1)`). -/
theorem C5_generate_mock (company source : String) (count : ℕ) (u : ℕ → ℚ)
    (hu : ∀ i, 0 ≤ u i ∧ u i < 1) (hc : 1 ≤ count) :
    (generate_mock_reviews company source count u).length = count ∧
    generate_mock_reviews company source count u ≠ [] ∧
    ∀ r ∈ generate_mock_reviews company source count u,
      r.source = source ∧ ∃ q : ℚ, r.rating = some q ∧ 3 ≤ q ∧ q ≤ 5 := by
  have hlen : (generate_mock_reviews company source count u).length = count := by
    simp [generate_mock_reviews]
  refine ⟨hlen, ?_, ?_⟩
  · intro hnil
    rw [hnil] at hlen
    simp at hlen
    omega
  · intro r hr
    simp only [generate_mock_reviews, List.mem_map, List.mem_range] at hr
    obtain ⟨i, _, hri⟩ := hr
    subst hri
    refine ⟨rfl, pyUniform 3 5 (u i), rfl, ?_, ?_⟩
    · have := (hu i).1
      simp only [pyUniform]
      nlinarith
    · have := (hu i).2
      simp only [pyUniform]
      nlinarith

/-- C5 witness: three records for company "Acme", source "G2", with the
random stream constantly 1/2. -/
theorem C5_generate_mock_witness :
    (generate_mock_reviews "Acme" "G2" 3 (fun _ => (1 : ℚ) / 2)).length = 3 ∧
    generate_mock_reviews "Acme" "G2" 3 (fun _ => (1 : ℚ) / 2) ≠ [] ∧
    ∀ r ∈ generate_mock_reviews "Acme" "G2" 3 (fun _ => (1 : ℚ) / 2),
      r.source = "G2" ∧ ∃ q : ℚ, r.rating = some q ∧ 3 ≤ q ∧ q ≤ 5 :=
  C5_generate_mock "Acme" "G2" 3 (fun _ => (1 : ℚ) / 2)
    (fun _ => by norm_num) (by norm_num)

/-! ## Orchestrator lemmas and claims C6, C10, C4 -/

/-- A scraper behaviour that never finds anything (used by witnesses). -/
def trivialO : ScraperO :=
  { get_direct_url := fun _ => (none, [])
    scrape := fun _ _ _ => ([], []) }

/-- Looking a key up in the constructed registry succeeds exactly for
the registry keys. -/
theorem registry_lookup_isSome (og2 ocap otr : ScraperO) (s : String) :
    (([("g2", og2), ("capterra", ocap), ("trustradius", otr)]).lookup s).isSome ↔
      s ∈ registryKeys := by
  by_cases h1 : s = "g2"
  · subst h1; simp [List.lookup, registryKeys]
  · by_cases h2 : s = "capterra"
    · subst h2; simp [List.lookup, registryKeys]
    · by_cases h3 : s = "trustradius"
      · subst h3; simp [List.lookup, registryKeys]
      · simp [List.lookup, registryKeys, h1, h2, h3,
          beq_eq_false_iff_ne.mpr h1, beq_eq_false_iff_ne.mpr h2,
          beq_eq_false_iff_ne.mpr h3]

/-- With well-formed inputs and `use_mock` set, the orchestrator
returns exactly the synthesizer output (converted to dictionaries) and
an empty request trace. -/
theorem toolMockEq (og2 ocap otr : ScraperO) (company sdate edate source : String)
    (u : ℕ → ℚ) (hs : (parseYmd sdate).isSome) (he : (parseYmd edate).isSome)
    (hk : (pyLower source) ∈ registryKeys) :
    toolScrapeReviews og2 ocap otr company sdate edate source true u =
      ((generate_mock_reviews company (pyUpper source) 5 u).map toDict, []) := by
  obtain ⟨sd, hsd⟩ := Option.isSome_iff_exists.mp hs
  obtain ⟨ed, hed⟩ := Option.isSome_iff_exists.mp he
  have hlk : (([("g2", og2), ("capterra", ocap),
      ("trustradius", otr)]).lookup (pyLower source)).isSome :=
    (registry_lookup_isSome og2 ocap otr (pyLower source)).mpr hk
  obtain ⟨sc, hsc⟩ := Option.isSome_iff_exists.mp hlk
  simp only [toolScrapeReviews, hsd, hed, hsc, if_true]

/-- C6: with `use_mock=true` (and well-formed inputs) the orchestrator
returns the fallback synthesizer's output immediately, and the
request-layer trace of the run is empty — no fetch, header rotation or
pacing delay happens, whatever the scrapers would have done. -/
theorem C6_mock_no_network (og2 ocap otr : ScraperO)
    (company sdate edate source : String) (u : ℕ → ℚ)
    (hs : (parseYmd sdate).isSome) (he : (parseYmd edate).isSome)
    (hk : (pyLower source) ∈ registryKeys) :
    toolScrapeReviews og2 ocap otr company sdate edate source true u =
      ((generate_mock_reviews company (pyUpper source) 5 u).map toDict, []) :=
  toolMockEq og2 ocap otr company sdate edate source u hs he hk

/-- C6 witness: a concrete mock run with never-succeeding scrapers. -/
theorem C6_mock_no_network_witness :
    toolScrapeReviews trivialO trivialO trivialO "Acme" "2024-01-01" "2024-12-31"
        "g2" true (fun _ => 0) =
      ((generate_mock_reviews "Acme" (pyUpper "g2") 5 (fun _ => 0)).map toDict, []) :=
  C6_mock_no_network trivialO trivialO trivialO "Acme" "2024-01-01" "2024-12-31"
    "g2" (fun _ => 0) (by decide) (by decide) (by decide)

/-- C10: synthesized records carry the upper-cased source tag the
orchestrator passes (`source.upper()`), scraped records carry the
per-adapter literal tags; the uppercase of "g2" coincides with the G2
literal tag but the uppercases of "capterra"/"trustradius" differ from
the Capterra/TrustRadius literal tags. -/
theorem C10_source_tags :
    (∀ company source count u, ∀ r ∈ generate_mock_reviews company source count u,
      r.source = source) ∧
    (∀ og2 ocap otr company sdate edate source u,
      (parseYmd sdate).isSome → (parseYmd edate).isSome →
      (pyLower source) ∈ registryKeys →
      ∀ rd ∈ (toolScrapeReviews og2 ocap otr company sdate edate source true u).1,
        rd.source = (pyUpper source)) ∧
    ((pyUpper "g2") = "G2" ∧ (pyUpper "capterra") = "CAPTERRA" ∧
      (pyUpper "trustradius") = "TRUSTRADIUS") ∧
    ("CAPTERRA" ≠ "Capterra" ∧ "TRUSTRADIUS" ≠ "TrustRadius") ∧
    (∀ now c, (parseG2Review now c).source = "G2") ∧
    (∀ c, (parseCapterraReview c).source = "Capterra") ∧
    (∀ fetch sd ed, ∀ r ∈ trScrapeReviews fetch sd ed, r.source = "TrustRadius") := by
  refine ⟨?_, ?_, ⟨by decide, by decide, by decide⟩, ⟨by decide, by decide⟩, ?_, ?_, ?_⟩
  · intro company source count u r hr
    simp only [generate_mock_reviews, List.mem_map, List.mem_range] at hr
    obtain ⟨i, _, hri⟩ := hr
    subst hri
    rfl
  · intro og2 ocap otr company sdate edate source u hs he hk rd hrd
    rw [toolMockEq og2 ocap otr company sdate edate source u hs he hk] at hrd
    simp only [List.mem_map] at hrd
    obtain ⟨r, hr, hrd⟩ := hrd
    subst hrd
    have hsrc : r.source = (pyUpper source) := by
      simp only [generate_mock_reviews, List.mem_map, List.mem_range] at hr
      obtain ⟨i, _, hri⟩ := hr
      subst hri
      rfl
    simpa [toDict] using hsrc
  · intro now c; rfl
  · intro c; rfl
  · intro fetch sd ed r hr
    cases fetch with
    | none => simp [trScrapeReviews] at hr
    | some elems =>
      simp only [trScrapeReviews, List.mem_map] at hr
      obtain ⟨_, _, hre⟩ := hr
      subst hre
      rfl

/-- C10 witness: the head record of a concrete mock run for source tag
"g2" carries source "g2".upper(). -/
theorem C10_source_tags_witness :
    (toDict ((generate_mock_reviews "Acme" (pyUpper "g2") 5 (fun _ => 0)).getD 0
        trSampleReview)).source = (pyUpper "g2") := by
  apply C10_source_tags.2.1 trivialO trivialO trivialO "Acme" "2024-01-01" "2024-12-31"
    "g2" (fun _ => 0) (by decide) (by decide) (by decide)
  exact List.mem_cons_self _ _

/-- C4 (amended): the orchestrator returns an empty sequence exactly
when an input is malformed — a date that `strptime("%Y-%m-%d")` rejects
or a source whose lower-cased tag is not a registry key; on every other
input, every branch (mock, discovery-failure fallback, empty-collection
fallback, live collection) returns a non-empty sequence.  Faults of the
adapters are `Option`/oracle-valued in the model, so no exception
reaches the caller by construction. -/
theorem C4_tool_empty_iff (og2 ocap otr : ScraperO)
    (company sdate edate source : String) (use_mock : Bool) (u : ℕ → ℚ) :
    (toolScrapeReviews og2 ocap otr company sdate edate source use_mock u).1 = [] ↔
      (parseYmd sdate = none ∨ parseYmd edate = none ∨
        (pyLower source) ∉ registryKeys) := by
  constructor
  · intro hempty
    by_contra hcon
    push_neg at hcon
    obtain ⟨h1, h2, h3⟩ := hcon
    obtain ⟨sd, hsd⟩ := Option.ne_none_iff_exists'.mp h1
    obtain ⟨ed, hed⟩ := Option.ne_none_iff_exists'.mp h2
    have hlk := (registry_lookup_isSome og2 ocap otr (pyLower source)).mpr h3
    obtain ⟨sc, hsc⟩ := Option.isSome_iff_exists.mp hlk
    have hmock : ∀ w : ℕ → ℚ,
        (generate_mock_reviews company (pyUpper source) 5 w).map toDict ≠ [] := by
      intro w hnil
      have := congrArg List.length hnil
      simp [generate_mock_reviews] at this
    simp only [toolScrapeReviews, hsd, hed, hsc] at hempty
    cases use_mock with
    | true =>
      simp only [if_true] at hempty
      exact hmock u hempty
    | false =>
      simp only [if_false, Bool.false_eq_true] at hempty
      rcases hgdu : sc.get_direct_url company with ⟨opt, ev⟩
      rw [hgdu] at hempty
      cases opt with
      | none => exact hmock u hempty
      | some url =>
        simp only at hempty
        by_cases hrs : (sc.scrape url sd ed).1.isEmpty
        · rw [if_pos hrs] at hempty
          exact hmock u hempty
        · rw [if_neg hrs] at hempty
          simp only [List.map_eq_nil_iff] at hempty
          rw [hempty] at hrs
          simp at hrs
  · intro h
    rcases h with h | h | h
    · rcases hE : parseYmd edate with _ | ed <;>
        simp only [toolScrapeReviews, h, hE]
    · rcases hS : parseYmd sdate with _ | sd <;>
        simp only [toolScrapeReviews, h, hS]
    · have hlk : (([("g2", og2), ("capterra", ocap),
          ("trustradius", otr)]).lookup (pyLower source)) = none := by
        rcases hlk' : (([("g2", og2), ("capterra", ocap),
            ("trustradius", otr)]).lookup (pyLower source)) with _ | sc
        · rfl
        · exact absurd ((registry_lookup_isSome og2 ocap otr (pyLower source)).mp
            (by rw [hlk']; rfl)) h
      rcases hS : parseYmd sdate with _ | sd
      · simp only [toolScrapeReviews, hS]
      · rcases hE : parseYmd edate with _ | ed <;>
          simp only [toolScrapeReviews, hS, hE, hlk]

/-- C4 counterexample: for the upper-case tag "G2" — which is not one
of the registry keys — the orchestrator still returns a non-empty
result (it validates the lower-cased tag), so "empty iff the source tag
is not one of the registry keys" fails as stated. -/
theorem C4_counterexample :
    (toolScrapeReviews trivialO trivialO trivialO "Acme" "2024-01-01" "2024-12-31"
        "G2" true (fun _ => 0)).1 ≠ [] ∧ "G2" ∉ registryKeys := by
  constructor
  · intro h
    have hlen : (toolScrapeReviews trivialO trivialO trivialO "Acme" "2024-01-01"
        "2024-12-31" "G2" true (fun _ => 0)).1.length = 5 := rfl
    rw [h] at hlen
    simp at hlen
  · decide

/-! ## Request layer: claim C8 -/

/-- A delivered result of the retry loop is a non-forcelisted status of
one of the attempts, and at most `retry_total` retries preceded it. -/
theorem retryGo_ok (resps : ℕ → ℕ) :
    ∀ fuel start st i, retryGo resps fuel start = Except.ok (st, i) →
      st = resps i ∧ shouldRetryStatus st = false ∧ start ≤ i ∧ i < start + fuel := by
  intro fuel
  induction fuel with
  | zero => intro start st i h; simp [retryGo] at h
  | succ n ih =>
    intro start st i h
    simp only [retryGo] at h
    by_cases hr : shouldRetryStatus (resps start) = true
    · rw [if_pos hr] at h
      have := ih (start + 1) st i h
      exact ⟨this.1, this.2.1, by omega, by omega⟩
    · rw [if_neg hr] at h
      simp only [Except.ok.injEq, Prod.mk.injEq] at h
      obtain ⟨hst, hi⟩ := h
      subst hi
      exact ⟨hst.symm, by rw [hst] at hr; simpa using hr, le_refl _, by omega⟩

/-- If every attempt the fuel allows is forcelisted, the loop
exhausts. -/
theorem retryGo_error (resps : ℕ → ℕ) :
    ∀ fuel start, (∀ i, start ≤ i → i < start + fuel → shouldRetryStatus (resps i) = true) →
      retryGo resps fuel start = Except.error () := by
  intro fuel
  induction fuel with
  | zero => intro start _; rfl
  | succ n ih =>
    intro start hall
    simp only [retryGo]
    rw [if_pos (hall start (le_refl _) (by omega))]
    exact ih (start + 1) (fun i h1 h2 => hall i (by omega) (by omega))

/-- C8: the transport configured by `EnhancedSession` retries only on
the statuses 429, 500, 502, 503, 504, at most `retry_total = 3` times,
with doubling backoff delays; and `make_request` returns `None` both on
an exhausted/unrecoverable transport fault and on a 4xx/5xx delivered
status (`raise_for_status`), never letting the exception past it. -/
theorem C8_retry_policy :
    (∀ resps : ℕ → ℕ, resps 0 ∉ status_forcelist →
      sessionGet resps = Except.ok (resps 0, 0)) ∧
    (∀ (resps : ℕ → ℕ) (st i : ℕ), sessionGet resps = Except.ok (st, i) →
      st = resps i ∧ st ∉ status_forcelist ∧ i ≤ retry_total) ∧
    (∀ resps : ℕ → ℕ, (∀ i, i ≤ retry_total → resps i ∈ status_forcelist) →
      sessionGet resps = Except.error ()) ∧
    (∀ k, backoffDelay (k + 1) = 2 * backoffDelay k) ∧
    (∀ (α : Type) (resps : ℕ → ℕ) (doc : α), sessionGet resps = Except.error () →
      make_request resps doc = none) ∧
    (∀ (α : Type) (resps : ℕ → ℕ) (doc : α) (st i : ℕ),
      sessionGet resps = Except.ok (st, i) → 400 ≤ st → st < 600 →
      make_request resps doc = none) := by
  refine ⟨?_, ?_, ?_, ?_, ?_, ?_⟩
  · intro resps h
    have hb : shouldRetryStatus (resps 0) = false := by
      simp [shouldRetryStatus, h]
    simp only [sessionGet, retry_total, retryGo, hb, if_false, Bool.false_eq_true]
  · intro resps st i h
    have := retryGo_ok resps (retry_total + 1) 0 st i h
    refine ⟨this.1, ?_, by omega⟩
    have hb := this.2.1
    simpa [shouldRetryStatus] using hb
  · intro resps hall
    refine retryGo_error resps (retry_total + 1) 0 (fun i h1 h2 => ?_)
    simp [shouldRetryStatus, hall i (by omega)]
  · intro k
    simp only [backoffDelay, pow_succ]
    ring
  · intro α resps doc h
    simp [make_request, h]
  · intro α resps doc st i h h4 h6
    simp [make_request, h, h4, h6]

/-- C8 witness: a clean status is delivered untouched on the first
attempt; constant 503 exhausts the retries and `make_request` turns
the fault into `none`; a 404 is not retried and `raise_for_status`
also yields `none`. -/
theorem C8_retry_policy_witness :
    sessionGet (fun _ => 200) = Except.ok (200, 0) ∧
    sessionGet (fun _ => 503) = Except.error () ∧
    make_request (fun _ => 503) () = none ∧
    make_request (fun _ => 404) () = none := by
  have h200 := C8_retry_policy.1 (fun _ => 200) (by decide)
  have h503 := C8_retry_policy.2.2.1 (fun _ => 503)
    (fun i _ => show (503 : ℕ) ∈ status_forcelist by decide)
  refine ⟨h200, h503, ?_, ?_⟩
  · exact C8_retry_policy.2.2.2.2.1 Unit (fun _ => 503) () h503
  · exact C8_retry_policy.2.2.2.2.2 Unit (fun _ => 404) () 404 0
      (C8_retry_policy.1 (fun _ => 404) (by decide)) (by norm_num) (by norm_num)

/-! ## G2 / Capterra window lemmas, claims C1 and C2 -/

/-- The adapters' in-window test: the review's date parses and lies in
`[start_date, end_date]`. -/
def inWindowB (sd ed : Dt) (r : Review) : Bool :=
  match parse_date r.date with
  | some dt => dtLe sd dt && dtLe dt ed
  | none => false

/-- Every review the G2 per-page loop adds to the accumulator is
in-window. -/
theorem g2Process_mem (now sd ed : Dt) :
    ∀ (cs : List G2Container) (acc : List Review) (cnt : ℕ) (r : Review),
      r ∈ (g2ProcessContainers now sd ed cs acc cnt).1 →
      r ∈ acc ∨ inWindowB sd ed r = true := by
  intro cs
  induction cs with
  | nil => intro acc cnt r hr; exact Or.inl hr
  | cons c rest ih =>
    intro acc cnt r hr
    simp only [g2ProcessContainers] at hr
    cases hp : parse_date (parseG2Review now c).date with
    | none =>
      rw [hp] at hr
      dsimp only at hr
      exact ih _ _ _ hr
    | some dt =>
      rw [hp] at hr
      dsimp only at hr
      by_cases hw : (dtLe sd dt && dtLe dt ed) = true
      · rw [if_pos hw] at hr
        rcases ih _ _ _ hr with hacc | hwin
        · rcases List.mem_append.mp hacc with h | h
          · exact Or.inl h
          · rw [List.mem_singleton.mp h]
            exact Or.inr (by simp [inWindowB, hp, hw])
        · exact Or.inr hwin
      · rw [if_neg hw] at hr
        by_cases hl : dtLt dt sd = true
        · rw [if_pos hl] at hr
          exact Or.inl hr
        · rw [if_neg hl] at hr
          exact ih _ _ _ hr

/-- Every review the G2 page loop adds to the accumulator is
in-window. -/
theorem g2Loop_mem (now : Dt) (pages : ℕ → Option (List G2Container)) (sd ed : Dt) :
    ∀ (fuel page : ℕ) (acc : List Review) (r : Review),
      r ∈ g2Loop now pages sd ed fuel page acc →
      r ∈ acc ∨ inWindowB sd ed r = true := by
  intro fuel
  induction fuel with
  | zero => intro page acc r hr; exact Or.inl hr
  | succ n ih =>
    intro page acc r hr
    simp only [g2Loop] at hr
    cases hcs : pages page with
    | none => rw [hcs] at hr; exact Or.inl hr
    | some cs =>
      rw [hcs] at hr
      dsimp only at hr
      by_cases hne : cs.isEmpty
      · rw [if_pos hne] at hr; exact Or.inl hr
      · rw [if_neg hne] at hr
        rcases hres : g2ProcessContainers now sd ed cs acc 0 with ⟨acc', cnt', flag⟩
        rw [hres] at hr
        have hmem : ∀ x ∈ acc', x ∈ acc ∨ inWindowB sd ed x = true := by
          intro x hx
          have := g2Process_mem now sd ed cs acc 0 x (by rw [hres]; exact hx)
          exact this
        cases flag with
        | true => dsimp only at hr; exact hmem r hr
        | false =>
          dsimp only at hr
          by_cases hcnt : cnt' = 0
          · rw [if_pos hcnt] at hr; exact hmem r hr
          · rw [if_neg hcnt] at hr
            rcases ih (page + 1) acc' r hr with h | h
            · exact hmem r h
            · exact Or.inr h

/-- Everything `G2Scraper.scrape_reviews` returns is in-window. -/
theorem g2Scrape_inWindow (now : Dt) (pages : ℕ → Option (List G2Container))
    (sd ed : Dt) (r : Review) (hr : r ∈ g2ScrapeReviews now pages sd ed) :
    inWindowB sd ed r = true := by
  rcases g2Loop_mem now pages sd ed 10 1 [] r hr with h | h
  · simp at h
  · exact h

/-- An in-window review has a parsed date inside both bounds. -/
theorem inWindowB_elim (sd ed : Dt) (r : Review) (h : inWindowB sd ed r = true) :
    ∃ dt, parse_date r.date = some dt ∧ dtLe sd dt = true ∧ dtLe dt ed = true := by
  unfold inWindowB at h
  cases hp : parse_date r.date with
  | none => rw [hp] at h; simp at h
  | some dt =>
    rw [hp] at h
    dsimp only at h
    simp only [Bool.and_eq_true] at h
    exact ⟨dt, rfl, h.1, h.2⟩

/-- Processing a container list is blind to everything after its first
too-old container. -/
theorem g2Process_truncate (now sd ed : Dt) (c : G2Container) (dt : Dt)
    (hc : parse_date (parseG2Review now c).date = some dt) (hlt : dtLt dt sd = true) :
    ∀ (pre : List G2Container) (acc : List Review) (cnt : ℕ) (post : List G2Container),
      g2ProcessContainers now sd ed (pre ++ c :: post) acc cnt =
        g2ProcessContainers now sd ed (pre ++ [c]) acc cnt := by
  intro pre
  induction pre with
  | nil =>
    intro acc cnt post
    have hsd : dtLe sd dt = false := by simp [dtLe, hlt]
    have hw : (dtLe sd dt && dtLe dt ed) = false := by simp [hsd]
    simp only [List.nil_append, g2ProcessContainers, hc, hw, hlt, if_true,
      Bool.false_eq_true, if_false]
  | cons x rest ih =>
    intro acc cnt post
    simp only [List.cons_append, g2ProcessContainers]
    cases hx : parse_date (parseG2Review now x).date with
    | none => dsimp only; exact ih _ _ _
    | some dx =>
      dsimp only
      by_cases hwx : (dtLe sd dx && dtLe dx ed) = true
      · rw [if_pos hwx, if_pos hwx]
        exact ih _ _ _
      · rw [if_neg hwx, if_neg hwx]
        by_cases hlx : dtLt dx sd = true
        · rw [if_pos hlx, if_pos hlx]
        · rw [if_neg hlx, if_neg hlx]
          exact ih _ _ _

/-- Processing a container list that ends with a too-old container
always raises the stop flag. -/
theorem g2Process_truncate_flag (now sd ed : Dt) (c : G2Container) (dt : Dt)
    (hc : parse_date (parseG2Review now c).date = some dt) (hlt : dtLt dt sd = true) :
    ∀ (pre : List G2Container) (acc : List Review) (cnt : ℕ),
      (g2ProcessContainers now sd ed (pre ++ [c]) acc cnt).2.2 = true := by
  intro pre
  induction pre with
  | nil =>
    intro acc cnt
    have hsd : dtLe sd dt = false := by simp [dtLe, hlt]
    have hw : (dtLe sd dt && dtLe dt ed) = false := by simp [hsd]
    simp only [List.nil_append, g2ProcessContainers, hc, hw, hlt, if_true,
      Bool.false_eq_true, if_false]
  | cons x rest ih =>
    intro acc cnt
    simp only [List.cons_append, g2ProcessContainers]
    cases hx : parse_date (parseG2Review now x).date with
    | none => dsimp only; exact ih _ _
    | some dx =>
      dsimp only
      by_cases hwx : (dtLe sd dx && dtLe dx ed) = true
      · rw [if_pos hwx]; exact ih _ _
      · rw [if_neg hwx]
        by_cases hlx : dtLt dx sd = true
        · rw [if_pos hlx]
        · rw [if_neg hlx]; exact ih _ _

/-- The G2 page loop gives the same result when every page after the
first too-old container is erased: before page `p` the two oracles
agree, and on page `p` both runs stop at that container. -/
theorem g2Loop_truncate (now sd ed : Dt) (pages : ℕ → Option (List G2Container))
    (p : ℕ) (pre post : List G2Container) (c : G2Container) (dt : Dt)
    (hpg : pages p = some (pre ++ c :: post))
    (hc : parse_date (parseG2Review now c).date = some dt)
    (hlt : dtLt dt sd = true) :
    ∀ (fuel page : ℕ) (acc : List Review), 1 ≤ page → page ≤ p →
      g2Loop now pages sd ed fuel page acc =
        g2Loop now
          (fun q => if q < p then pages q else if q = p then some (pre ++ [c]) else none)
          sd ed fuel page acc := by
  intro fuel
  induction fuel with
  | zero => intro page acc _ _; rfl
  | succ n ih =>
    intro page acc h1 hle
    by_cases hpp : page = p
    · subst hpp
      have hq : (if page < page then pages page
          else if page = page then some (pre ++ [c]) else none) = some (pre ++ [c]) := by
        simp
      have hne1 : (pre ++ c :: post).isEmpty = false := by
        simp [List.isEmpty_iff]
      have hne2 : (pre ++ [c]).isEmpty = false := by
        simp [List.isEmpty_iff]
      simp only [g2Loop]
      simp only [hpg, lt_self_iff_false, if_false, eq_self_iff_true, if_true]
      rw [hne1, hne2]
      simp only [Bool.false_eq_true, if_false]
      rw [g2Process_truncate now sd ed c dt hc hlt pre acc 0 post]
      rcases hres : g2ProcessContainers now sd ed (pre ++ [c]) acc 0 with ⟨acc', cnt', flag⟩
      have hflag := g2Process_truncate_flag now sd ed c dt hc hlt pre acc 0
      rw [hres] at hflag
      dsimp only at hflag
      subst hflag
      rfl
    · have hlt' : page < p := lt_of_le_of_ne hle hpp
      have hq : (if page < p then pages page
          else if page = p then some (pre ++ [c]) else none) = pages page := by
        simp [hlt']
      simp only [g2Loop, hq]
      cases hcs : pages page with
      | none => rfl
      | some cs =>
        dsimp only
        by_cases hne : cs.isEmpty
        · rw [if_pos hne, if_pos hne]
        · rw [if_neg hne, if_neg hne]
          rcases hres : g2ProcessContainers now sd ed cs acc 0 with ⟨acc', cnt', flag⟩
          cases flag with
          | true => rfl
          | false =>
            dsimp only
            by_cases hcnt : cnt' = 0
            · rw [if_pos hcnt, if_pos hcnt]
            · rw [if_neg hcnt, if_neg hcnt]
              exact ih (page + 1) acc' (by omega) (by omega)

/-- `capGo` is map-then-filter: every element is visited, in-window
parses are kept, everything else is skipped, and nothing ever stops the
walk. -/
theorem capGo_eq (sd ed : Dt) (elems : List CapContainer) :
    capGo sd ed elems = (elems.map parseCapterraReview).filter (inWindowB sd ed) := by
  induction elems with
  | nil => rfl
  | cons c rest ih =>
    simp only [capGo, List.map_cons, List.filter_cons]
    cases hp : parse_date (parseCapterraReview c).date with
    | none =>
      have hw : inWindowB sd ed (parseCapterraReview c) = false := by
        simp [inWindowB, hp]
      simp [hw, ih]
    | some dt =>
      by_cases hb : (dtLe sd dt && dtLe dt ed) = true
      · have hw : inWindowB sd ed (parseCapterraReview c) = true := by
          simp [inWindowB, hp, hb]
        simp [hb, hw, ih]
      · have hbf : (dtLe sd dt && dtLe dt ed) = false := by
          cases hcase : (dtLe sd dt && dtLe dt ed)
          · rfl
          · exact absurd hcase hb
        have hw : inWindowB sd ed (parseCapterraReview c) = false := by
          simp [inWindowB, hp, hbf]
        simp [hbf, hw, ih]

/-- C1 (amended): for G2, the returned sequence contains no item whose
parsed date is strictly before `start_date`, and once a container
parses strictly before `start_date` collection stops there — the run is
identical to one in which everything after that container (the rest of
its page and all later pages) does not exist.  Capterra also never
returns an item parsed before `start_date` (it filters, single page).
TrustRadius does not satisfy the claim (see the counterexample). -/
theorem C1_early_termination :
    (∀ (now : Dt) (pages : ℕ → Option (List G2Container)) (sd ed : Dt) (r : Review),
      r ∈ g2ScrapeReviews now pages sd ed →
      ∃ dt, parse_date r.date = some dt ∧ dtLe sd dt = true) ∧
    (∀ (now : Dt) (pages : ℕ → Option (List G2Container)) (sd ed : Dt)
      (p : ℕ) (pre post : List G2Container) (c : G2Container) (dt : Dt),
      1 ≤ p → pages p = some (pre ++ c :: post) →
      parse_date (parseG2Review now c).date = some dt → dtLt dt sd = true →
      g2ScrapeReviews now pages sd ed =
        g2ScrapeReviews now
          (fun q => if q < p then pages q else if q = p then some (pre ++ [c]) else none)
          sd ed) ∧
    (∀ (fetch : Option (List CapContainer)) (sd ed : Dt) (r : Review),
      r ∈ capScrapeReviews fetch sd ed →
      ∃ dt, parse_date r.date = some dt ∧ dtLe sd dt = true) := by
  refine ⟨?_, ?_, ?_⟩
  · intro now pages sd ed r hr
    obtain ⟨dt, h1, h2, _⟩ := inWindowB_elim sd ed r (g2Scrape_inWindow now pages sd ed r hr)
    exact ⟨dt, h1, h2⟩
  · intro now pages sd ed p pre post c dt hp hpg hc hlt
    exact g2Loop_truncate now sd ed pages p pre post c dt hpg hc hlt 10 1 [] (le_refl 1) hp
  · intro fetch sd ed r hr
    cases fetch with
    | none => simp [capScrapeReviews] at hr
    | some elems =>
      simp only [capScrapeReviews, capGo_eq] at hr
      have := List.of_mem_filter hr
      obtain ⟨dt, h1, h2, _⟩ := inWindowB_elim sd ed r this
      exact ⟨dt, h1, h2⟩

/-- C1 counterexample: TrustRadius is an adapter whose collect
operation does return items parsed strictly before `start_date`: with
the window 2025-01-01..2025-12-31 and a page carrying one review-like
element, the result holds the fixed sample review dated "July 2024",
which parses before the start date.  So the claim fails for "every
adapter". -/
theorem C1_counterexample :
    trScrapeReviews (some [()]) ⟨2025, 1, 1⟩ ⟨2025, 12, 31⟩ = [trSampleReview] ∧
    parse_date trSampleReview.date = some ⟨2024, 7, 1⟩ ∧
    dtLt ⟨2024, 7, 1⟩ ⟨2025, 1, 1⟩ = true := by
  refine ⟨rfl, by decide, by decide⟩

/-- A G2 container whose only populated selector is the date chain
(`time`), used by concrete runs. -/
def g2ContWithDate (dateText : String) : G2Container :=
  { selectOne := fun sel =>
      if sel = "time" then some ⟨dateText, dateText, "", 0⟩ else none }

/-- A two-container page: one in-window review, then one too-old
review. -/
def c1PagesW : ℕ → Option (List G2Container) := fun p =>
  if p = 1 then some [g2ContWithDate "May 5, 2024", g2ContWithDate "March 3, 2020"]
  else none

/-- C1 witness: on the concrete page the collected in-window review has
a parsed date at or after the start date, and the run is identical to
the truncated run in which nothing follows the too-old container. -/
theorem C1_early_termination_witness :
    (parse_date (parseG2Review ⟨2025, 6, 15⟩ (g2ContWithDate "May 5, 2024")).date).elim
        false (dtLe ⟨2024, 1, 1⟩) = true ∧
    g2ScrapeReviews ⟨2025, 6, 15⟩ c1PagesW ⟨2024, 1, 1⟩ ⟨2024, 12, 31⟩ =
      g2ScrapeReviews ⟨2025, 6, 15⟩
        (fun q => if q < 1 then c1PagesW q
          else if q = 1 then some ([g2ContWithDate "May 5, 2024"] ++
            [g2ContWithDate "March 3, 2020"]) else none)
        ⟨2024, 1, 1⟩ ⟨2024, 12, 31⟩ := by
  constructor
  · obtain ⟨dt, h1, h2⟩ := C1_early_termination.1 ⟨2025, 6, 15⟩ c1PagesW
      ⟨2024, 1, 1⟩ ⟨2024, 12, 31⟩ (parseG2Review ⟨2025, 6, 15⟩ (g2ContWithDate "May 5, 2024"))
      (by
        have : g2ScrapeReviews ⟨2025, 6, 15⟩ c1PagesW ⟨2024, 1, 1⟩ ⟨2024, 12, 31⟩ =
            [parseG2Review ⟨2025, 6, 15⟩ (g2ContWithDate "May 5, 2024")] := rfl
        rw [this]
        exact List.mem_singleton.mpr rfl)
    rw [h1]
    exact h2
  · exact C1_early_termination.2.1 ⟨2025, 6, 15⟩ c1PagesW ⟨2024, 1, 1⟩ ⟨2024, 12, 31⟩
      1 [g2ContWithDate "May 5, 2024"] [] (g2ContWithDate "March 3, 2020") ⟨2020, 3, 3⟩
      (le_refl 1) rfl (by decide) (by decide)

/-! ## GitHub characterization, claim C2 -/

/-- `takeWhile` over an append whose left part is all-true. -/
theorem takeWhile_append_all {α : Type} (q : α → Bool) :
    ∀ (l s : List α), (∀ x ∈ l, q x = true) →
      (l ++ s).takeWhile q = l ++ s.takeWhile q := by
  intro l
  induction l with
  | nil => intro s _; rfl
  | cons a l' ih =>
    intro s h
    have ha := h a (List.mem_cons_self a l')
    simp only [List.cons_append, List.takeWhile_cons, ha, if_true]
    rw [ih s (fun x hx => h x (List.mem_cons_of_mem a hx))]

/-- `takeWhile` over an append whose left part has a failure. -/
theorem takeWhile_append_stop {α : Type} (q : α → Bool) :
    ∀ (l s : List α), (∃ x ∈ l, q x = false) →
      (l ++ s).takeWhile q = l.takeWhile q := by
  intro l
  induction l with
  | nil => intro s h; simp at h
  | cons a l' ih =>
    intro s h
    cases ha : q a with
    | false => simp [List.takeWhile_cons, ha]
    | true =>
      obtain ⟨x, hx, hqx⟩ := h
      rcases List.mem_cons.mp hx with rfl | hx'
      · rw [ha] at hqx; cases hqx
      · simp only [List.cons_append, List.takeWhile_cons, ha, if_true]
        rw [ih s ⟨x, hx', hqx⟩]

/-- The per-page GitHub loop appends exactly the in-window prefix of
the page (everything before the first too-old issue, filtered by the
end bound), and raises the stop flag exactly when the page holds a
too-old issue. -/
theorem ghProcess_eq (sd ed : String) :
    ∀ (pg : List Issue) (acc : List GitHubReview),
      ghProcessIssues sd ed pg acc =
        (acc ++ ((pg.takeWhile (fun i => !ghTooOld sd i)).filter
            (ghInEnd ed)).map issueToReview,
          pg.any (ghTooOld sd)) := by
  intro pg
  induction pg with
  | nil => intro acc; simp [ghProcessIssues]
  | cons i rest ih =>
    intro acc
    cases ho : ghTooOld sd i with
    | true =>
      simp [ghProcessIssues, ho, List.takeWhile_cons, List.any_cons]
    | false =>
      cases he : ghInEnd ed i with
      | true =>
        simp only [ghProcessIssues, ho, he, Bool.false_eq_true, if_false, if_true,
          List.takeWhile_cons, Bool.not_false, List.filter_cons, List.map_cons,
          List.any_cons, Bool.false_or]
        rw [ih]
        simp [List.append_assoc]
      | false =>
        simp only [ghProcessIssues, ho, he, Bool.false_eq_true, if_false,
          List.takeWhile_cons, Bool.not_false, List.filter_cons, List.map_cons,
          List.any_cons, Bool.false_or]
        rw [ih]
        simp [List.filter_cons, he]

/-- `GitHubScraper.get_issues` returns exactly: the stream of issues up
to the first empty page, cut at the first issue created before
`start_date`, filtered to issues created at or before `end_date`,
mapped to review records.  In particular an issue after `end_date` is
skipped without stopping collection: later in-window issues (same page
or later pages) are still collected. -/
theorem ghGetIssues_eq (pages : List (List Issue)) (sd ed : String) :
    ghGetIssues pages sd ed =
      (((ghStream pages).takeWhile (fun i => !ghTooOld sd i)).filter
        (ghInEnd ed)).map issueToReview := by
  suffices h : ∀ (ps : List (List Issue)) (acc : List GitHubReview),
      ghGetIssuesGo sd ed ps acc =
        acc ++ (((ghStream ps).takeWhile (fun i => !ghTooOld sd i)).filter
          (ghInEnd ed)).map issueToReview by
    have := h pages []
    simpa [ghGetIssues] using this
  intro ps
  induction ps with
  | nil => intro acc; simp [ghGetIssuesGo, ghStream]
  | cons pg rest ih =>
    intro acc
    by_cases hemp : pg.isEmpty
    · have hpg : pg = [] := by simpa [List.isEmpty_iff] using hemp
      subst hpg
      simp [ghGetIssuesGo, ghStream]
    · have hstream : ghStream (pg :: rest) = pg ++ ghStream rest := by
        simp only [ghStream, List.takeWhile_cons]
        rw [if_pos (by simp [hemp])]
        simp
      simp only [ghGetIssuesGo, hemp, Bool.false_eq_true, if_false]
      rw [ghProcess_eq]
      cases hany : pg.any (ghTooOld sd) with
      | true =>
        dsimp only
        have hstop : (pg ++ ghStream rest).takeWhile (fun i => !ghTooOld sd i) =
            pg.takeWhile (fun i => !ghTooOld sd i) := by
          apply takeWhile_append_stop
          obtain ⟨x, hx, hqx⟩ := List.any_eq_true.mp hany
          exact ⟨x, hx, by simp [hqx]⟩
        rw [hstream, hstop]
      | false =>
        dsimp only
        have hall : ∀ x ∈ pg, (!ghTooOld sd x) = true := by
          intro x hx
          have := List.any_eq_false.mp hany x hx
          simp [this]
        have hsplit : (pg ++ ghStream rest).takeWhile (fun i => !ghTooOld sd i) =
            pg ++ (ghStream rest).takeWhile (fun i => !ghTooOld sd i) := by
          exact takeWhile_append_all _ pg (ghStream rest) hall
        have hpgall : pg.takeWhile (fun i => !ghTooOld sd i) = pg :=
          List.takeWhile_eq_self_iff.mpr hall
        rw [ih, hstream, hsplit]
        rw [List.filter_append, List.map_append, hpgall, List.append_assoc]

/-- C2 (amended): G2, Capterra and GitHub issues exclude items parsed
strictly after `end_date` from the result, and encountering one never
triggers the early return — GitHub and Capterra keep collecting (the
GitHub result is exactly the too-old-cut stream filtered by the end
bound; the Capterra result is exactly filter-over-all-elements).  For
G2 the item is skipped within its page, but a page in which no item
lands in the window ends pagination, so in-window items on later pages
can be lost (see the counterexample); TrustRadius applies no date
filter at all (also in the counterexample). -/
theorem C2_end_date_exclusion :
    (∀ (now : Dt) (pages : ℕ → Option (List G2Container)) (sd ed : Dt) (r : Review),
      r ∈ g2ScrapeReviews now pages sd ed →
      ∃ dt, parse_date r.date = some dt ∧ dtLe dt ed = true) ∧
    (∀ (pages : List (List Issue)) (sd ed : String),
      ghGetIssues pages sd ed =
        (((ghStream pages).takeWhile (fun i => !ghTooOld sd i)).filter
          (ghInEnd ed)).map issueToReview) ∧
    (∀ (elems : List CapContainer) (sd ed : Dt),
      capScrapeReviews (some elems) sd ed =
        (elems.map parseCapterraReview).filter (inWindowB sd ed)) := by
  refine ⟨?_, ghGetIssues_eq, ?_⟩
  · intro now pages sd ed r hr
    obtain ⟨dt, h1, _, h3⟩ := inWindowB_elim sd ed r (g2Scrape_inWindow now pages sd ed r hr)
    exact ⟨dt, h1, h3⟩
  · intro elems sd ed
    simp only [capScrapeReviews, capGo_eq]

/-- First page all after the window, second page in-window: G2 stops
after the first page. -/
def c2PagesX : ℕ → Option (List G2Container) := fun p =>
  if p = 1 then some [g2ContWithDate "November 20, 2024"]
  else if p = 2 then some [g2ContWithDate "June 1, 2024"] else none

/-- C2 counterexample.  First conjunct block: TrustRadius returns its
sample review dated July 2024 even for the window ending 2024-01-01 —
an item strictly after `end_date` is not excluded.  Second block: G2
with a first page holding only an after-`end_date` item stops
pagination there (zero in-window items on the page), returning nothing,
although the second page holds an item inside the window — so
encountering after-`end_date` items can stop collection. -/
theorem C2_counterexample :
    (trScrapeReviews (some [()]) ⟨2023, 1, 1⟩ ⟨2024, 1, 1⟩ = [trSampleReview] ∧
      parse_date trSampleReview.date = some ⟨2024, 7, 1⟩ ∧
      dtLt ⟨2024, 1, 1⟩ ⟨2024, 7, 1⟩ = true) ∧
    (g2ScrapeReviews ⟨2025, 6, 15⟩ c2PagesX ⟨2024, 1, 1⟩ ⟨2024, 8, 1⟩ = [] ∧
      c2PagesX 2 = some [g2ContWithDate "June 1, 2024"] ∧
      parse_date (parseG2Review ⟨2025, 6, 15⟩ (g2ContWithDate "June 1, 2024")).date =
        some ⟨2024, 6, 1⟩ ∧
      dtLe ⟨2024, 1, 1⟩ ⟨2024, 6, 1⟩ = true ∧ dtLe ⟨2024, 6, 1⟩ ⟨2024, 8, 1⟩ = true ∧
      parse_date (parseG2Review ⟨2025, 6, 15⟩ (g2ContWithDate "November 20, 2024")).date =
        some ⟨2024, 11, 20⟩ ∧
      dtLt ⟨2024, 8, 1⟩ ⟨2024, 11, 20⟩ = true) :=
  ⟨⟨rfl, by decide, by decide⟩,
    ⟨rfl, rfl, by decide, by decide, by decide, by decide, by decide⟩⟩

/-- C2 witness: a concrete G2 member is inside the end bound; a
concrete one-page GitHub run equals its characterization. -/
theorem C2_end_date_exclusion_witness :
    (parse_date (parseG2Review ⟨2025, 6, 15⟩ (g2ContWithDate "May 5, 2024")).date).elim
        false (fun dt => dtLe dt ⟨2024, 12, 31⟩) = true ∧
    ghGetIssues [[ghExampleIssue]] "2024-01-01" "2024-12-31" =
      ((((ghStream [[ghExampleIssue]]).takeWhile
          (fun i => !ghTooOld "2024-01-01" i)).filter
        (ghInEnd "2024-12-31")).map issueToReview) := by
  constructor
  · obtain ⟨dt, h1, h3⟩ := C2_end_date_exclusion.1 ⟨2025, 6, 15⟩ c1PagesW
      ⟨2024, 1, 1⟩ ⟨2024, 12, 31⟩ (parseG2Review ⟨2025, 6, 15⟩ (g2ContWithDate "May 5, 2024"))
      (by
        have : g2ScrapeReviews ⟨2025, 6, 15⟩ c1PagesW ⟨2024, 1, 1⟩ ⟨2024, 12, 31⟩ =
            [parseG2Review ⟨2025, 6, 15⟩ (g2ContWithDate "May 5, 2024")] := rfl
        rw [this]
        exact List.mem_singleton.mpr rfl)
    rw [h1]
    exact h3
  · exact C2_end_date_exclusion.2.1 [[ghExampleIssue]] "2024-01-01" "2024-12-31"

/-! ## The strftime/parse_date roundtrip, claim C9 -/

theorem digitOf_isDigit (k : ℕ) : (digitOf k).isDigit = true := by
  rcases Nat.lt_or_ge k 10 with h | h
  · interval_cases k <;> decide
  · simp only [digitOf]
    rw [List.getD_eq_default]
    · decide
    · simp [digitChars]; omega

theorem digitVal_digitOf (k : ℕ) (h : k < 10) : digitVal (digitOf k) = k := by
  interval_cases k <;> decide

theorem pyIsSpace_digitOf (k : ℕ) : pyIsSpace (digitOf k) = false := by
  rcases Nat.lt_or_ge k 10 with h | h
  · interval_cases k <;> decide
  · simp only [digitOf]
    rw [List.getD_eq_default]
    · decide
    · simp [digitChars]; omega

theorem keepChar_digitOf (k : ℕ) : keepChar (digitOf k) = true := by
  rcases Nat.lt_or_ge k 10 with h | h
  · interval_cases k <;> decide
  · simp only [digitOf]
    rw [List.getD_eq_default]
    · decide
    · simp [digitChars]; omega

/-- `strip` is the identity on a string with non-whitespace first and
last characters. -/
theorem pyStrip_eq_self (cs : List Char)
    (h1 : ∀ c ∈ cs.take 1, pyIsSpace c = false)
    (h2 : ∀ c ∈ cs.reverse.take 1, pyIsSpace c = false) :
    pyStrip cs = cs := by
  cases cs with
  | nil => rfl
  | cons a l =>
    have ha : pyIsSpace a = false := h1 a (by simp)
    show (((a :: l).dropWhile pyIsSpace).reverse.dropWhile pyIsSpace).reverse = a :: l
    rw [List.dropWhile_cons, ha]
    simp only [Bool.false_eq_true, if_false]
    rcases hrev : (a :: l).reverse with _ | ⟨r, rs⟩
    · exact absurd (congrArg List.length hrev) (by simp)
    · have hr : pyIsSpace r = false := h2 r (by rw [hrev]; simp)
      rw [List.dropWhile_cons, hr]
      simp only [Bool.false_eq_true, if_false]
      rw [← hrev, List.reverse_reverse]

/-- `%d` on a zero-padded two-digit day: the two-digit candidate comes
first and denotes the day itself. -/
theorem dayCands_pad2 (d : ℕ) (hd1 : 1 ≤ d) (hd31 : d ≤ 31) (cs : List Char) :
    dayCands (digitOf (d / 10) :: digitOf (d % 10) :: cs) =
      (d, cs) :: (if 10 ≤ d then [(d / 10, digitOf (d % 10) :: cs)] else []) := by
  interval_cases d <;> rfl

/-- `%Y` on the four decimal digits of a four-digit year. -/
theorem year4Parse_pad4 (y : ℕ) (hy1 : 1000 ≤ y) (hy2 : y ≤ 9999) (cs : List Char) :
    year4Parse (digitOf (y / 1000) :: digitOf (y / 100 % 10) :: digitOf (y / 10 % 10) ::
      digitOf (y % 10) :: cs) = some (y, cs) := by
  simp only [year4Parse, digitOf_isDigit, Bool.and_self, if_true]
  rw [digitVal_digitOf (y / 1000) (by omega), digitVal_digitOf (y / 100 % 10) (by omega),
    digitVal_digitOf (y / 10 % 10) (by omega), digitVal_digitOf (y % 10) (by omega)]
  have : ((y / 1000 * 10 + y / 100 % 10) * 10 + y / 10 % 10) * 10 + y % 10 = y := by omega
  rw [this]

/-- Stepping the matcher over a literal. -/
theorem matchToks_lit (ts : List Tok) (c : Char) (rest : List Char) (y0 m0 d0 : ℕ) :
    matchToks (Tok.lit c :: ts) (c :: rest) y0 m0 d0 = matchToks ts rest y0 m0 d0 := by
  simp [matchToks]

/-- Stepping the matcher over a single-space whitespace run. -/
theorem matchToks_ws (ts : List Tok) (c : Char) (rest : List Char) (y0 m0 d0 : ℕ)
    (hc : pyIsSpace c = false) :
    matchToks (Tok.ws :: ts) (' ' :: c :: rest) y0 m0 d0 =
      matchToks ts (c :: rest) y0 m0 d0 := by
  have hsp : pyIsSpace ' ' = true := rfl
  simp [matchToks, List.takeWhile_cons, List.dropWhile_cons, hsp, hc]

/-- Stepping the matcher over `%d` when the head candidate's
continuation succeeds (the regex prefers it, no backtrack needed). -/
theorem matchToks_dD_first (ts : List Tok) (input cs : List Char)
    (dval y0 m0 d0 : ℕ) (tl : List (ℕ × List Char)) (r : ℕ × ℕ × ℕ)
    (hcands : dayCands input = (dval, cs) :: tl)
    (hcont : matchToks ts cs y0 m0 dval = some r) :
    matchToks (Tok.dD :: ts) input y0 m0 d0 = some r := by
  cases tl with
  | nil => simp [matchToks, hcands, hcont]
  | cons q qs => simp [matchToks, hcands, hcont]

/-- Ending the matcher with `%Y` against exactly the four digits of a
four-digit year. -/
theorem matchToks_yY_end (y y0 m0 d0 : ℕ) (hy1 : 1000 ≤ y) (hy2 : y ≤ 9999) :
    matchToks [Tok.yY] (digitOf (y / 1000) :: digitOf (y / 100 % 10) ::
      digitOf (y / 10 % 10) :: digitOf (y % 10) :: []) y0 m0 d0 = some (y, m0, d0) := by
  simp [matchToks, year4Parse_pad4 y hy1 hy2]

/-- `strftime("%B %d, %Y")` output parses back to the same date by the
very first format `parse_date` tries, for any month string that the
`%B` matcher resolves and any valid day/four-digit year. -/
theorem bdY_roundtrip (mstr : String) (mval y d : ℕ)
    (hmonth : ∀ cs, monthMatch monthNamesFull (mstr.data ++ cs) = some (mval, cs))
    (hmw : ∀ ch ∈ mstr.data, keepChar ch = true ∧ pyIsSpace ch = false)
    (hne : mstr.data ≠ [])
    (hd1 : 1 ≤ d) (hd31 : d ≤ 31) (hy1 : 1000 ≤ y) (hy2 : y ≤ 9999)
    (hv : validDate y mval d = true) :
    parse_date (mstr ++ " " ++ pad2 d ++ ", " ++ pad4 y) = some ⟨y, mval, d⟩ := by
  have happ : ∀ a b : String, (a ++ b).data = a.data ++ b.data := fun _ _ => rfl
  have hdata : (mstr ++ " " ++ pad2 d ++ ", " ++ pad4 y).data =
      mstr.data ++ (' ' :: digitOf (d / 10) :: digitOf (d % 10) :: ',' :: ' ' ::
        digitOf (y / 1000) :: digitOf (y / 100 % 10) :: digitOf (y / 10 % 10) ::
        digitOf (y % 10) :: []) := by
    rw [happ, happ, happ, happ]
    have hsp : (" " : String).data = [' '] := rfl
    have hcm : (", " : String).data = [',', ' '] := rfl
    have hp2 : (pad2 d).data = [digitOf (d / 10), digitOf (d % 10)] := rfl
    have hp4 : (pad4 y).data = [digitOf (y / 1000), digitOf (y / 100 % 10),
        digitOf (y / 10 % 10), digitOf (y % 10)] := rfl
    rw [hsp, hcm, hp2, hp4]
    simp [List.append_assoc]
  have hnem : (mstr ++ " " ++ pad2 d ++ ", " ++ pad4 y).isEmpty = false := by
    rw [Bool.eq_false_iff]
    intro hemp
    have hd0 := congrArg String.data ((String.isEmpty_iff _).mp hemp)
    rw [hdata] at hd0
    simp at hd0
  have hstrip : pyStrip ((mstr ++ " " ++ pad2 d ++ ", " ++ pad4 y).data) =
      (mstr ++ " " ++ pad2 d ++ ", " ++ pad4 y).data := by
    apply pyStrip_eq_self
    · intro c hc
      rcases hmne : mstr.data with _ | ⟨m0, mrest⟩
      · exact absurd hmne hne
      · rw [hdata, hmne] at hc
        simp at hc
        rw [hc]
        exact (hmw m0 (by rw [hmne]; exact List.mem_cons_self _ _)).2
    · intro c hc
      rw [hdata, List.reverse_append] at hc
      simp at hc
      subst hc
      exact pyIsSpace_digitOf _
  have hfilter : ((mstr ++ " " ++ pad2 d ++ ", " ++ pad4 y).data).filter keepChar =
      (mstr ++ " " ++ pad2 d ++ ", " ++ pad4 y).data := by
    apply List.filter_eq_self.mpr
    intro c hc
    rw [hdata] at hc
    rcases List.mem_append.mp hc with hm | hr
    · exact (hmw c hm).1
    · simp only [List.mem_cons, List.not_mem_nil, or_false] at hr
      rcases hr with rfl | rfl | rfl | rfl | rfl | rfl | rfl | rfl | rfl
      · decide
      · exact keepChar_digitOf _
      · exact keepChar_digitOf _
      · decide
      · decide
      · exact keepChar_digitOf _
      · exact keepChar_digitOf _
      · exact keepChar_digitOf _
      · exact keepChar_digitOf _
  have hmatch : matchToks fmtBdY (mstr.data ++ (' ' :: digitOf (d / 10) ::
      digitOf (d % 10) :: ',' :: ' ' :: digitOf (y / 1000) :: digitOf (y / 100 % 10) ::
      digitOf (y / 10 % 10) :: digitOf (y % 10) :: [])) 1900 1 1 = some (y, mval, d) := by
    have h0 : matchToks fmtBdY (mstr.data ++ (' ' :: digitOf (d / 10) ::
        digitOf (d % 10) :: ',' :: ' ' :: digitOf (y / 1000) :: digitOf (y / 100 % 10) ::
        digitOf (y / 10 % 10) :: digitOf (y % 10) :: [])) 1900 1 1 =
        matchToks [Tok.ws, Tok.dD, Tok.lit ',', Tok.ws, Tok.yY]
          (' ' :: digitOf (d / 10) :: digitOf (d % 10) :: ',' :: ' ' ::
            digitOf (y / 1000) :: digitOf (y / 100 % 10) :: digitOf (y / 10 % 10) ::
            digitOf (y % 10) :: []) 1900 mval 1 := by
      simp only [fmtBdY, matchToks, hmonth]
    rw [h0]
    rw [matchToks_ws _ _ _ _ _ _ (pyIsSpace_digitOf _)]
    apply matchToks_dD_first _ _ _ d 1900 mval 1 _ _
      (dayCands_pad2 d hd1 hd31 (',' :: ' ' :: digitOf (y / 1000) ::
        digitOf (y / 100 % 10) :: digitOf (y / 10 % 10) :: digitOf (y % 10) :: []))
    rw [matchToks_lit]
    rw [matchToks_ws _ _ _ _ _ _ (pyIsSpace_digitOf _)]
    exact matchToks_yY_end y 1900 mval d hy1 hy2
  have htry : tryFormat fmtBdY (((mstr ++ " " ++ pad2 d ++ ", " ++ pad4 y).data)) =
      some ⟨y, mval, d⟩ := by
    rw [hdata]
    simp [tryFormat, hmatch, hv]
  simp only [parse_date, hnem, Bool.false_eq_true, if_false]
  rw [hstrip, hfilter]
  simp only [date_formats, firstSomeP, htry]

theorem daysInMonth_le (y m : ℕ) : daysInMonth y m ≤ 31 := by
  simp only [daysInMonth]
  split
  · split <;> omega
  · split <;> omega

/-- `parse_date` inverts `strftime("%B %d, %Y")` on every valid date
with a four-digit year. -/
theorem parse_strftime_roundtrip (now : Dt) (hv : validDate now.y now.m now.d = true)
    (hy1 : 1000 ≤ now.y) (hy2 : now.y ≤ 9999) :
    parse_date (strftimeBdY now) = some now := by
  obtain ⟨y, m, d⟩ := now
  simp only at hv hy1 hy2 ⊢
  have hb : (((1 ≤ y ∧ 1 ≤ m) ∧ m ≤ 12) ∧ 1 ≤ d) ∧ d ≤ daysInMonth y m := by
    simpa [validDate, Bool.and_eq_true, decide_eq_true_eq] using hv
  have hd31 : d ≤ 31 := le_trans hb.2 (daysInMonth_le y m)
  have hd1 : 1 ≤ d := hb.1.2
  have hm1 : 1 ≤ m := hb.1.1.1.2
  have hm12 : m ≤ 12 := hb.1.1.2
  interval_cases m
  · have hs : strftimeBdY ⟨y, 1, d⟩ = "January" ++ " " ++ pad2 d ++ ", " ++ pad4 y := rfl
    rw [hs]
    exact bdY_roundtrip "January" 1 y d (fun _ => rfl) (by decide) (by decide)
      hd1 hd31 hy1 hy2 hv
  · have hs : strftimeBdY ⟨y, 2, d⟩ = "February" ++ " " ++ pad2 d ++ ", " ++ pad4 y := rfl
    rw [hs]
    exact bdY_roundtrip "February" 2 y d (fun _ => rfl) (by decide) (by decide)
      hd1 hd31 hy1 hy2 hv
  · have hs : strftimeBdY ⟨y, 3, d⟩ = "March" ++ " " ++ pad2 d ++ ", " ++ pad4 y := rfl
    rw [hs]
    exact bdY_roundtrip "March" 3 y d (fun _ => rfl) (by decide) (by decide)
      hd1 hd31 hy1 hy2 hv
  · have hs : strftimeBdY ⟨y, 4, d⟩ = "April" ++ " " ++ pad2 d ++ ", " ++ pad4 y := rfl
    rw [hs]
    exact bdY_roundtrip "April" 4 y d (fun _ => rfl) (by decide) (by decide)
      hd1 hd31 hy1 hy2 hv
  · have hs : strftimeBdY ⟨y, 5, d⟩ = "May" ++ " " ++ pad2 d ++ ", " ++ pad4 y := rfl
    rw [hs]
    exact bdY_roundtrip "May" 5 y d (fun _ => rfl) (by decide) (by decide)
      hd1 hd31 hy1 hy2 hv
  · have hs : strftimeBdY ⟨y, 6, d⟩ = "June" ++ " " ++ pad2 d ++ ", " ++ pad4 y := rfl
    rw [hs]
    exact bdY_roundtrip "June" 6 y d (fun _ => rfl) (by decide) (by decide)
      hd1 hd31 hy1 hy2 hv
  · have hs : strftimeBdY ⟨y, 7, d⟩ = "July" ++ " " ++ pad2 d ++ ", " ++ pad4 y := rfl
    rw [hs]
    exact bdY_roundtrip "July" 7 y d (fun _ => rfl) (by decide) (by decide)
      hd1 hd31 hy1 hy2 hv
  · have hs : strftimeBdY ⟨y, 8, d⟩ = "August" ++ " " ++ pad2 d ++ ", " ++ pad4 y := rfl
    rw [hs]
    exact bdY_roundtrip "August" 8 y d (fun _ => rfl) (by decide) (by decide)
      hd1 hd31 hy1 hy2 hv
  · have hs : strftimeBdY ⟨y, 9, d⟩ = "September" ++ " " ++ pad2 d ++ ", " ++ pad4 y := rfl
    rw [hs]
    exact bdY_roundtrip "September" 9 y d (fun _ => rfl) (by decide) (by decide)
      hd1 hd31 hy1 hy2 hv
  · have hs : strftimeBdY ⟨y, 10, d⟩ = "October" ++ " " ++ pad2 d ++ ", " ++ pad4 y := rfl
    rw [hs]
    exact bdY_roundtrip "October" 10 y d (fun _ => rfl) (by decide) (by decide)
      hd1 hd31 hy1 hy2 hv
  · have hs : strftimeBdY ⟨y, 11, d⟩ = "November" ++ " " ++ pad2 d ++ ", " ++ pad4 y := rfl
    rw [hs]
    exact bdY_roundtrip "November" 11 y d (fun _ => rfl) (by decide) (by decide)
      hd1 hd31 hy1 hy2 hv
  · have hs : strftimeBdY ⟨y, 12, d⟩ = "December" ++ " " ++ pad2 d ++ ", " ++ pad4 y := rfl
    rw [hs]
    exact bdY_roundtrip "December" 12 y d (fun _ => rfl) (by decide) (by decide)
      hd1 hd31 hy1 hy2 hv

/-- A run over a single page holding one container whose date parses to
`now` returns that review exactly when `now` is inside the window. -/
theorem g2_single_page_run (now sd ed : Dt) (pages : ℕ → Option (List G2Container))
    (c : G2Container) (hp1 : pages 1 = some [c]) (hp2 : pages 2 = none)
    (hparse : parse_date ((parseG2Review now c).date) = some now) :
    g2ScrapeReviews now pages sd ed =
      (if (dtLe sd now && dtLe now ed) = true then [parseG2Review now c] else []) := by
  show g2Loop now pages sd ed 10 1 [] = _
  rw [show (10 : ℕ) = 9 + 1 from rfl]
  simp only [g2Loop]
  rw [hp1]
  dsimp only
  simp only [List.isEmpty_cons, Bool.false_eq_true, if_false]
  by_cases hw : (dtLe sd now && dtLe now ed) = true
  · rw [if_pos hw]
    have hproc : g2ProcessContainers now sd ed [c] [] 0 =
        ([parseG2Review now c], 1, false) := by
      simp only [g2ProcessContainers, hparse, hw, if_true]
      rfl
    rw [hproc]
    dsimp only
    norm_num
    have hp2' : pages (1 + 1) = none := hp2
    rw [hp2']
  · rw [if_neg hw]
    have hwf : (dtLe sd now && dtLe now ed) = false := by
      cases hcase : (dtLe sd now && dtLe now ed)
      · rfl
      · exact absurd hcase hw
    by_cases hl : dtLt now sd = true
    · have hproc : g2ProcessContainers now sd ed [c] [] 0 = ([], 0, true) := by
        simp only [g2ProcessContainers, hparse, hwf, Bool.false_eq_true, if_false,
          hl, if_true]
      rw [hproc]
    · have hlf : dtLt now sd = false := by
        cases hcase : dtLt now sd
        · rfl
        · exact absurd hcase hl
      have hproc : g2ProcessContainers now sd ed [c] [] 0 = ([], 0, false) := by
        simp only [g2ProcessContainers, hparse, hwf, hlf, Bool.false_eq_true, if_false]
      rw [hproc]
      rfl

/-- C9: when no date selector of `_parse_g2_review`'s fallback chain
yields text for a container, the review's date is set to the current
date formatted as full month-day-year (not marked unparseable);
`parse_date` resolves that string back to the current date, so in
`scrape_reviews` the dateless item is included exactly when the current
date lies inside [start_date, end_date] (a too-old current date
triggers the early return instead — either way the item is dropped). -/
theorem C9_dateless_fallback (now : Dt) (c : G2Container) (sd ed : Dt)
    (hv : validDate now.y now.m now.d = true)
    (hy1 : 1000 ≤ now.y) (hy2 : now.y ≤ 9999)
    (hnodate : g2DateText c g2DateSelectors = none) :
    (parseG2Review now c).date = strftimeBdY now ∧
    parse_date ((parseG2Review now c).date) = some now ∧
    g2ScrapeReviews now (fun p => if p = 1 then some [c] else none) sd ed =
      (if (dtLe sd now && dtLe now ed) = true then [parseG2Review now c] else []) := by
  have hdate : (parseG2Review now c).date = strftimeBdY now := by
    simp [parseG2Review, hnodate]
  have hparse : parse_date ((parseG2Review now c).date) = some now := by
    rw [hdate]
    exact parse_strftime_roundtrip now hv hy1 hy2
  exact ⟨hdate, hparse,
    g2_single_page_run now sd ed (fun p => if p = 1 then some [c] else none) c
      (by simp) (by simp) hparse⟩

/-- A container none of whose selectors yields anything. -/
def g2ContBare : G2Container := { selectOne := fun _ => none }

/-- C9 witness: a concrete dateless container on 2024-08-15 with the
window 2024-01-01..2024-12-31. -/
theorem C9_dateless_fallback_witness :
    (parseG2Review ⟨2024, 8, 15⟩ g2ContBare).date = strftimeBdY ⟨2024, 8, 15⟩ ∧
    parse_date ((parseG2Review ⟨2024, 8, 15⟩ g2ContBare).date) = some ⟨2024, 8, 15⟩ ∧
    g2ScrapeReviews ⟨2024, 8, 15⟩ (fun p => if p = 1 then some [g2ContBare] else none)
        ⟨2024, 1, 1⟩ ⟨2024, 12, 31⟩ =
      (if (dtLe ⟨2024, 1, 1⟩ ⟨2024, 8, 15⟩ && dtLe ⟨2024, 8, 15⟩ ⟨2024, 12, 31⟩) = true
        then [parseG2Review ⟨2024, 8, 15⟩ g2ContBare] else []) :=
  C9_dateless_fallback ⟨2024, 8, 15⟩ g2ContBare ⟨2024, 1, 1⟩ ⟨2024, 12, 31⟩
    (by decide) (by decide) (by decide) (by decide)

/-! ## Format-order refinement, claim C7 -/

theorem digit_ne_slash (ch : Char) (h : ch.isDigit = true) : ch ≠ '/' := by
  intro hcon
  rw [hcon] at h
  exact absurd h (by decide)

/-- A literal token fails on a different head character. -/
theorem matchToks_lit_ne (ts : List Tok) (lc ch : Char) (rest : List Char)
    (y0 m0 d0 : ℕ) (h : ch ≠ lc) :
    matchToks (Tok.lit lc :: ts) (ch :: rest) y0 m0 d0 = none := by
  simp [matchToks, h]

/-- `%d` fails when every candidate's continuation fails. -/
theorem matchToks_dD_none (ts : List Tok) (input : List Char) (y0 m0 d0 : ℕ)
    (hall : ∀ p ∈ dayCands input, matchToks ts p.2 y0 m0 p.1 = none) :
    matchToks (Tok.dD :: ts) input y0 m0 d0 = none := by
  cases hdc : dayCands input with
  | nil => simp [matchToks, hdc]
  | cons p tl =>
    cases tl with
    | nil =>
      have hp := hall p (by rw [hdc]; exact List.mem_cons_self _ _)
      simp [matchToks, hdc, hp]
    | cons q tl2 =>
      have hp := hall p (by rw [hdc]; exact List.mem_cons_self _ _)
      have hq := hall q (by rw [hdc]; exact List.mem_cons_of_mem _ (List.mem_cons_self _ _))
      simp [matchToks, hdc, hp, hq]

/-- Every `%d` candidate on `a :: b :: rest` leaves either `rest` or
`b :: rest`. -/
theorem dayCands_tails (a b : Char) (rest : List Char) (p : ℕ × List Char)
    (hp : p ∈ dayCands (a :: b :: rest)) : p.2 = rest ∨ p.2 = b :: rest := by
  have hdc : dayCands (a :: b :: rest) =
      (if (a = '3' && (b = '0' || b = '1')) ||
          ((a = '1' || a = '2') && b.isDigit) ||
          (a = '0' && b.isDigit && b ≠ '0') then
        [(digitVal a * 10 + digitVal b, rest)]
      else []) ++
      (if a.isDigit && a ≠ '0' then [(digitVal a, b :: rest)] else []) := rfl
  rw [hdc] at hp
  rcases List.mem_append.mp hp with h | h
  · split at h
    · simp at h
      exact Or.inl (by rw [h])
    · simp at h
  · split at h
    · simp at h
      exact Or.inr (by rw [h])
    · simp at h

/-- A string the ISO `%Y-%m-%d` format matches is never matched by
`%d/%m/%Y`: the ISO match forces four digits then a hyphen, while the
slash format needs a slash at position 1 or 2, where the ISO string has
digits. -/
theorem ymd_dmy_disjoint (cs : List Char) (y0 m0 d0 y1 m1 d1 : ℕ) (r : ℕ × ℕ × ℕ)
    (h : matchToks fmtYmd cs y0 m0 d0 = some r) :
    matchToks fmtdmY cs y1 m1 d1 = none := by
  rcases cs with _ | ⟨a, _ | ⟨b, _ | ⟨c, _ | ⟨d, _ | ⟨e, rest⟩⟩⟩⟩⟩
  · simp [matchToks, fmtYmd, year4Parse] at h
  · simp [matchToks, fmtYmd, year4Parse] at h
  · simp [matchToks, fmtYmd, year4Parse] at h
  · simp [matchToks, fmtYmd, year4Parse] at h
  · rcases hd4 : (a.isDigit && b.isDigit && c.isDigit && d.isDigit) with _ | _
    · exfalso
      simp [matchToks, fmtYmd, year4Parse, hd4] at h
    · exfalso
      simp [matchToks, fmtYmd, year4Parse, hd4] at h
  · rcases hd4 : (a.isDigit && b.isDigit && c.isDigit && d.isDigit) with _ | _
    · exfalso
      simp [matchToks, fmtYmd, year4Parse, hd4] at h
    · have hdig := hd4
      simp only [Bool.and_eq_true] at hdig
      have he : e = '-' := by
        by_contra hcon
        simp [matchToks, fmtYmd, year4Parse, hd4, hcon] at h
      subst he
      have hbslash : b ≠ '/' := digit_ne_slash b hdig.1.1.2
      have hcslash : c ≠ '/' := digit_ne_slash c hdig.1.2
      show matchToks (Tok.dD :: Tok.lit '/' :: Tok.mM :: Tok.lit '/' :: Tok.yY :: [])
        (a :: b :: c :: d :: '-' :: rest) y1 m1 d1 = none
      apply matchToks_dD_none
      intro p hp
      rcases dayCands_tails a b (c :: d :: '-' :: rest) p hp with ht | ht
      · rw [ht]
        exact matchToks_lit_ne _ '/' c _ _ _ _ hcslash
      · rw [ht]
        exact matchToks_lit_ne _ '/' b _ _ _ _ hbslash

/-- The first-match scan is insensitive to the relative order of the
ISO and day-first numeric formats, because no string matches both. -/
theorem firstSomeP_order_agree (cs : List Char) :
    firstSomeP date_formats (fun f => tryFormat f cs) =
      firstSomeP date_formats_spec (fun f => tryFormat f cs) := by
  have hdisj : ∀ v, tryFormat fmtYmd cs = some v → tryFormat fmtdmY cs = none := by
    intro v hv
    unfold tryFormat at hv ⊢
    rcases hm : matchToks fmtYmd cs 1900 1 1 with _ | r
    · rw [hm] at hv; cases hv
    · rw [ymd_dmy_disjoint cs 1900 1 1 1900 1 1 r hm]
  simp only [date_formats, date_formats_spec, firstSomeP]
  cases h1 : tryFormat fmtBdY cs with
  | some v => rfl
  | none =>
    cases h2 : tryFormat fmtbdY cs with
    | some v => rfl
    | none =>
      cases h3 : tryFormat fmtmdY cs with
      | some v => rfl
      | none =>
        cases h4 : tryFormat fmtYmd cs with
        | some v => rw [hdisj v h4]
        | none =>
          cases h5 : tryFormat fmtdmY cs with
          | some v => rfl
          | none => rfl

/-- C7: `parse_date` behaves exactly as the spec's description —
strip/cleanup, then the ordered format list (full month-day-year,
abbreviated month-day-year, the two numeric orderings, ISO
year-month-day, month-year, ISO year-month) with the first match
returned, then the bare 20xx-year fallback resolved to January 1st,
else `None`, never raising.  The source interleaves `%Y-%m-%d` between
the two slash formats, but no string matches both an ISO and a slash
format, so the source's order computes the same function as the spec's
order on every input string. -/
theorem C7_parse_date_order (s : String) : parse_date s = parse_date_spec s := by
  unfold parse_date parse_date_spec
  by_cases hemp : s.isEmpty
  · simp [hemp]
  · simp only [hemp, Bool.false_eq_true, if_false]
    rw [firstSomeP_order_agree]
